import Mathlib

/-!
Verification of the report-generation core of the ResearchPaper_generator
repository.  Python strings are modelled as lists of characters; the
completion oracle and the retrieval oracle are modelled as total functions
from prompts to text; Python code that can raise an uncaught exception is
modelled with `Option`/`Except`.
-/

deriving instance DecidableEq for Except

namespace RPG

/-- Python strings are modelled as lists of characters. -/
abbrev Str := List Char

/-- View a Lean string literal as a modelled Python string. -/
def S (s : String) : Str := s.data

/-- ASCII whitespace, the common core of Python `str.strip()` and of the
regex class `\s` as used by the repository on newline-split lines. -/
def pyWS (c : Char) : Bool :=
  c == ' ' || c == '\t' || c == '\n' || c == '\r' || c == '\x0B' || c == '\x0C'

/-- Strip characters satisfying `p` from both ends (Python `str.strip(chars)`). -/
def stripWith (p : Char → Bool) (s : Str) : Str :=
  ((s.dropWhile p).reverse.dropWhile p).reverse

/-- Python `str.strip()`. -/
def pyStrip (s : Str) : Str := stripWith pyWS s

/-- Python `str.strip('# ')`. -/
def stripHashSpace (s : Str) : Str := stripWith (fun c => c == '#' || c == ' ') s

/-- Python `str.split('\n')`. -/
def splitNl : Str → List Str
  | [] => [[]]
  | c :: cs =>
    if c = '\n' then [] :: splitNl cs
    else
      match splitNl cs with
      | g :: gs => (c :: g) :: gs
      | [] => [[c]]

/-- Python `sep.join(xs)`. -/
def joinSep (sep : Str) : List Str → Str
  | [] => []
  | [x] => x
  | x :: y :: xs => x ++ sep ++ joinSep sep (y :: xs)

/-- Boolean test: `p` is an initial segment of `s` (Python `str.startswith`). -/
def isPre : Str → Str → Bool
  | [], _ => true
  | _ :: _, [] => false
  | a :: as, b :: bs => a == b && isPre as bs

/-- Boolean test: `n` is a final segment of `s` (Python `str.endswith`). -/
def isSuf (n s : Str) : Bool := isPre n.reverse s.reverse

/-- Boolean test: `n` occurs contiguously inside `h` (Python `in`). -/
def isSubstr (n : Str) : Str → Bool
  | [] => n.isEmpty
  | c :: cs => isPre n (c :: cs) || isSubstr n cs

/-- Python `str.lower()` (ASCII). -/
def lowerStr (s : Str) : Str := s.map Char.toLower

/-- Python `str.upper()` (ASCII). -/
def upperStr (s : Str) : Str := s.map Char.toUpper

/-- Python `str(n)` for a natural number. -/
def natToStr (n : Nat) : Str := (Nat.repr n).data

/-- Greedy `\d+`: the maximal run of leading digits, and the remainder. -/
def takeDigits : Str → Str × Str
  | [] => ([], [])
  | c :: cs =>
    if c.isDigit then (c :: (takeDigits cs).1, (takeDigits cs).2)
    else ([], c :: cs)

/-- The regex `^(\d+\.)\s*(.*)$` applied to a section text, returning the
normalized number (digits plus trailing dot) and the title. -/
def matchSecNum (s : Str) : Option (Str × Str) :=
  if (takeDigits s).1 = [] then none
  else
    match (takeDigits s).2 with
    | '.' :: r2 => some ((takeDigits s).1 ++ ['.'], r2.dropWhile pyWS)
    | _ => none

/-- The regex `^(\d+\.\d+)\.?\s*(.*)$` applied to a subsection line, returning
the dotted number (without the optional trailing dot) and the title. -/
def matchSubsec (s : Str) : Option (Str × Str) :=
  if (takeDigits s).1 = [] then none
  else
    match (takeDigits s).2 with
    | '.' :: r2 =>
      if (takeDigits r2).1 = [] then none
      else
        some ((takeDigits s).1 ++ '.' :: (takeDigits r2).1,
          (match (takeDigits r2).2 with
           | '.' :: t => t
           | t => t).dropWhile pyWS)
    | _ => none

/-- Test for `re.match(r'^\d+\.\d+\.', line) or re.match(r'^\d+\.\d+\s', line)`. -/
def isSubsecLine (s : Str) : Bool :=
  if (takeDigits s).1 = [] then false
  else
    match (takeDigits s).2 with
    | '.' :: r2 =>
      if (takeDigits r2).1 = [] then false
      else
        match (takeDigits r2).2 with
        | c :: _ => c == '.' || pyWS c
        | [] => false
    | _ => false

/-- A (stripped) line that opens a section: `line.startswith('## ')`. -/
def isSecLine (s : Str) : Bool := isPre (S "## ") s

/-- Python dict lookup on an insertion-ordered association list. -/
def dictGet {α : Type} : List (Str × α) → Str → Option α
  | [], _ => none
  | (k', v) :: rest, k => if k' = k then some v else dictGet rest k

/-- Python dict assignment: replace in place if the key exists, else append. -/
def dictSet {α : Type} : List (Str × α) → Str → α → List (Str × α)
  | [], k, v => [(k, v)]
  | (k', v') :: rest, k, v =>
    if k' = k then (k, v) :: rest else (k', v') :: dictSet rest k v

/-- Python `s.split(" ", 1)[1]`: the part after the first space, `none`
modelling the IndexError when the string has no space. -/
def split1Snd : Str → Option Str
  | [] => none
  | c :: cs => if c = ' ' then some cs else split1Snd cs

/-- Python `s.split(" ", 1)[1] if " " in s else s`. -/
def afterFirstSpaceOrSelf (s : Str) : Str :=
  match split1Snd s with
  | some t => t
  | none => s

/-- Python `str.split()` with no argument: whitespace runs as separators,
no empty fields. -/
def splitWSAux : Str → Str → List Str
  | [], acc => if acc = [] then [] else [acc.reverse]
  | c :: cs, acc =>
    if pyWS c then
      (if acc = [] then [] else [acc.reverse]) ++ splitWSAux cs []
    else splitWSAux cs (c :: acc)

def pySplitWS (s : Str) : List Str := splitWSAux s []

/-! ## src/src/report_generator.py -/

/-- report_generator.extract_title. -/
def extractTitle (outline : Str) : Str :=
  pyStrip (stripHashSpace ((splitNl (pyStrip outline)).headD []))

/-- The key both scan loops derive from a section line:
`line.strip('# ').strip()`. -/
def secKeyOf (l : Str) : Str := pyStrip (stripHashSpace l)

def queryGenPrompt (title secKey subKey : Str) : Str :=
  S "Generate a research query for a report on " ++ title ++ S ". " ++
  S "The query should be for the subsection '" ++ subKey ++
  S "' under the main section '" ++ secKey ++ S "'. " ++
  S "The query should guide the research to gather relevant information for this part of the report. The query should be clear, short and concise. "

def classifyPrompt (query : Str) : Str :=
  S "Classify the following query as either \"LLM\" if it can be answered directly by a large language model with general knowledge, or \"INDEX\" if it likely requires querying an external index or database for specific or up-to-date information.\n\n    Query: \"" ++
  query ++
  S "\"\n\n    Consider the following:\n    1. If the query asks for general knowledge, concepts, or explanations, classify as \"LLM\".\n    2. If the query asks for specific facts, recent events, or detailed information that might not be in the LLM's training data, classify as \"INDEX\".\n    3. If unsure, err on the side of \"INDEX\".\n\n    Classification:"

/-- report_generator.generate_query_with_llm. -/
def genQueryWithLLM (llm : Str → Str) (title secKey subKey : Str) : Str :=
  pyStrip (llm (queryGenPrompt title secKey subKey))

/-- report_generator.classify_query. -/
def classifyQuery (llm : Str → Str) (query : Str) : Str :=
  let c := upperStr (pyStrip (llm (classifyPrompt query)))
  if c = S "LLM" ∨ c = S "INDEX" then c else S "INDEX"

structure QueryRecord where
  query : Str
  classification : Str
deriving DecidableEq

abbrev InnerMap := List (Str × QueryRecord)
abbrev QueryMap := List (Str × InnerMap)
abbrev ContentMap := List (Str × List (Str × Str))

/-- The query record built for one subsection (lines 57-59 / 64-66). -/
def mkRecord (llm : Str → Str) (title secKey subKey : Str) : QueryRecord :=
  let q := genQueryWithLLM llm title secKey subKey
  ⟨q, classifyQuery llm q⟩

structure PState where
  cs : Str
  qm : QueryMap
deriving DecidableEq

instance : DecidableEq (QueryMap × Str) := instDecidableEqProd

instance : DecidableEq (Option (QueryMap × Str)) := inferInstance

/-- One loop iteration of parse_outline_and_generate_queries (lines 47-59);
`none` models the KeyError raised when a subsection line occurs before any
section line. -/
def plannerStep (llm : Str → Str) (title : Str) (st : PState) (rawLine : Str) :
    Option PState :=
  if pyStrip rawLine = [] then some st
  else if isSecLine (pyStrip rawLine) then
    some ⟨secKeyOf (pyStrip rawLine), dictSet st.qm (secKeyOf (pyStrip rawLine)) []⟩
  else if isSubsecLine (pyStrip rawLine) then
    match dictGet st.qm st.cs with
    | none => none
    | some inner =>
      some ⟨st.cs, dictSet st.qm st.cs
        (dictSet inner (pyStrip rawLine) (mkRecord llm title st.cs (pyStrip rawLine)))⟩
  else some st

def plannerGo (llm : Str → Str) (title : Str) : List Str → PState → Option PState
  | [], st => some st
  | l :: ls, st =>
    match plannerStep llm title st l with
    | none => none
    | some st' => plannerGo llm title ls st'

/-- One entry of the second loop of parse_outline_and_generate_queries
(lines 61-66): a section with no subsection records gets a synthetic
"General" record generated for subsection title "General overview". -/
def fillEntry (llm : Str → Str) (title : Str) (p : Str × InnerMap) : Str × InnerMap :=
  if p.2 = [] then (p.1, [(S "General", mkRecord llm title p.1 (S "General overview"))])
  else p

/-- Second loop of parse_outline_and_generate_queries (lines 61-66). -/
def generalFill (llm : Str → Str) (title : Str) (qm : QueryMap) : QueryMap :=
  qm.map (fillEntry llm title)

/-- report_generator.parse_outline_and_generate_queries. -/
def parseOutlineAndGenerateQueries (llm : Str → Str) (outline : Str) :
    Option (QueryMap × Str) :=
  (plannerGo llm (extractTitle outline) ((splitNl (pyStrip outline)).tail) ⟨[], []⟩).map
    fun st => (generalFill llm (extractTitle outline) st.qm, extractTitle outline)

structure OSubsection where
  number : Str
  title : Str
deriving DecidableEq

structure OSection where
  number : Str
  title : Str
  subsections : List OSubsection
deriving DecidableEq

/-- The section opened by a `## ` line when `k` sections already exist
(lines 175-193): the number comes from the text, or is synthesized as `k+1.`. -/
def mkSecFrom (k : Nat) (line : Str) : OSection :=
  match matchSecNum (secKeyOf line) with
  | some (n, t) => ⟨n, t, []⟩
  | none => ⟨natToStr (k + 1) ++ S ".", secKeyOf line, []⟩

/-- The subsection built from a matching line (lines 197-203).  When the
guard `isSubsecLine` holds the match always succeeds; the `none` branch is
unreachable. -/
def mkSubFrom (line : Str) : OSubsection :=
  match matchSubsec line with
  | some (n, t) => ⟨n ++ S ".", t⟩
  | none => ⟨[], []⟩

/-- One loop iteration of _parse_outline_structure (lines 169-203) on the
reversed section accumulator (head = current section). -/
def structStep (l : Str) (acc : List OSection) : List OSection :=
  if pyStrip l = [] then acc
  else if isSecLine (pyStrip l) then mkSecFrom acc.length (pyStrip l) :: acc
  else
    match acc with
    | [] => []
    | cur :: rest =>
      if isSubsecLine (pyStrip l) then
        { cur with subsections := cur.subsections ++ [mkSubFrom (pyStrip l)] } :: rest
      else cur :: rest

def structGo : List Str → List OSection → List OSection
  | [], acc => acc.reverse
  | l :: ls, acc => structGo ls (structStep l acc)

/-- ReportGenerationAgent._parse_outline_structure. -/
def parseOutlineStructure (outline : Str) : List OSection :=
  structGo ((splitNl (pyStrip outline)).tail) []

def expandedQueryPrompt (query : Str) : Str :=
  S "Based on the query: \"" ++ query ++
  S "\"\n                        \n                        Provide a comprehensive response that would be suitable for a subsection of a research paper. \n                        The response should be well-structured, informative, and around 300-500 words.\n                        Include relevant facts, concepts, and examples where appropriate.\n                        Ensure the content is cohesive and flows well as part of a larger document."

def queryWithInstructionsPrompt (query : Str) : Str :=
  S "Query: " ++ query ++
  S "\n                        \n                        Please provide a comprehensive response suitable for a research paper subsection.\n                        Include specific details, facts, and references where possible."

def fallbackPrompt (subKey secKey : Str) : Str :=
  S "Provide informative content about " ++ subKey ++ S " for a research paper on " ++ secKey

/-- The primary answer of one query record (lines 327-343): the completion
oracle for an LLM classification, the retrieval oracle otherwise. -/
def primaryAnswer (llm qe : Str → Str) (r : QueryRecord) : Str :=
  if r.classification = S "LLM" then llm (expandedQueryPrompt r.query)
  else qe (queryWithInstructionsPrompt r.query)

/-- The per-record body of generate_section_content (lines 326-353): the
final content together with the list of completion-oracle prompts issued.
Oracles are total functions here, so the except branch at lines 355-358 is
unreachable. -/
def processRecord (llm qe : Str → Str) (secKey subKey : Str) (r : QueryRecord) :
    Str × List Str :=
  let answer := primaryAnswer llm qe r
  let calls := if r.classification = S "LLM" then [expandedQueryPrompt r.query] else []
  if (pyStrip answer).length < 50 then
    (llm (fallbackPrompt subKey secKey), calls ++ [fallbackPrompt subKey secKey])
  else (answer, calls)

/-- ReportGenerationAgent.generate_section_content (stored contents). -/
def generateSectionContent (llm qe : Str → Str) (queries : QueryMap) : ContentMap :=
  queries.foldl
    (fun acc p =>
      dictSet acc p.1
        (p.2.foldl (fun iacc q => dictSet iacc q.1 (processRecord llm qe p.1 q.1 q.2).1) []))
    []

def introPrompt (title topics context : Str) : Str :=
  S "Write a thorough introduction for a research paper titled \"" ++ title ++
  S "\".\n        \n        The paper covers the following topics:\n        " ++ topics ++
  S "\n        \n        Based on these topics and the following content samples:\n        " ++ context ++
  S "\n        \n        Write an engaging introduction that:\n        1. Introduces the topic and its importance\n        2. Outlines the scope of the paper\n        3. Provides context for the reader\n        4. Sets up the structure of the following sections\n        \n        Keep the introduction comprehensive yet concise."

def conclusionPrompt (title topics context : Str) : Str :=
  S "Write a thorough conclusion for a research paper titled \"" ++ title ++
  S "\".\n        \n        The paper covered the following topics:\n        " ++ topics ++
  S "\n        \n        Based on these topics and the following content samples:\n        " ++ context ++
  S "\n        \n        Write a comprehensive conclusion that:\n        1. Summarizes the key findings and insights\n        2. Discusses the implications of the research\n        3. Suggests potential areas for future research\n        4. Ends with a meaningful closing statement\n        \n        The conclusion should be thorough and thoughtful."

def overviewPrompt (secTitle subList samples : Str) : Str :=
  S "Write a brief overview paragraph for the section \"" ++ secTitle ++
  S "\" of a research paper.\n        \n        The section contains the following subsections:\n        " ++ subList ++
  S "\n        \n        Based on these subsection samples:\n        " ++ samples ++
  S "\n        \n        Write a concise paragraph that introduces this section and ties together the subsections that follow.\n        The paragraph should be no more than 3-5 sentences."

def subPlaceholderPrompt (subTitle secTitle reportTitle : Str) : Str :=
  S "Generate content for the subsection \"" ++ subTitle ++ S "\" under the section \"" ++
  secTitle ++ S "\" for a research paper titled \"" ++ reportTitle ++
  S "\".\n            \n            The content should be informative, well-structured, and around 200-300 words. Focus on providing accurate and useful information related to the subsection topic."

def secPlaceholderPrompt (secTitle reportTitle : Str) : Str :=
  S "Generate content for the section \"" ++ secTitle ++ S "\" for a research paper titled \"" ++
  reportTitle ++
  S "\".\n            \n            The content should be informative, well-structured, and around 300-400 words. Provide a comprehensive overview of the topic covered by this section."

/-- Content snippets gathered by _generate_introduction (lines 210-218): up
to two subsection values from each section whose key does not contain
"introduction" (case-insensitive), capped at five. -/
def introSnippets (contents : ContentMap) : List Str :=
  (((contents.filter fun p => !(isSubstr (S "introduction") (lowerStr p.1))).map
    fun p => (p.2.map Prod.snd).take 2).flatten).take 5

/-- Topic list of the introduction prompt (line 223); `none` models the
IndexError from `s.split(" ", 1)[1]` on a key with no space. -/
def introTopics (contents : ContentMap) : Option Str :=
  match ((contents.map Prod.fst).filter
      fun k => !(isSubstr (S "introduction") (lowerStr k))).mapM split1Snd with
  | none => none
  | some ts => some (joinSep (S ", ") ts)

/-- ReportGenerationAgent._generate_introduction. -/
def generateIntroduction (llm : Str → Str) (title : Str) (contents : ContentMap) :
    Option Str :=
  match introTopics contents with
  | none => none
  | some topics =>
    some (llm (introPrompt title topics (joinSep (S "\n") (introSnippets contents))))

/-- Content snippets gathered by _generate_conclusion (lines 242-250): ONE
subsection value from each section whose key does not contain "conclusion"
(case-insensitive) — introduction sections included — capped at five. -/
def conclusionSnippets (contents : ContentMap) : List Str :=
  (((contents.filter fun p => !(isSubstr (S "conclusion") (lowerStr p.1))).map
    fun p => (p.2.map Prod.snd).take 1).flatten).take 5

/-- Topic list of the conclusion prompt (line 255). -/
def conclusionTopics (contents : ContentMap) : Option Str :=
  match ((contents.map Prod.fst).filter
      fun k => !(isSubstr (S "conclusion") (lowerStr k)) &&
               !(isSubstr (S "introduction") (lowerStr k))).mapM split1Snd with
  | none => none
  | some ts => some (joinSep (S ", ") ts)

/-- ReportGenerationAgent._generate_conclusion. -/
def generateConclusion (llm : Str → Str) (title : Str) (contents : ContentMap) :
    Option Str :=
  match conclusionTopics contents with
  | none => none
  | some topics =>
    some (llm (conclusionPrompt title topics (joinSep (S "\n") (conclusionSnippets contents))))

/-- ReportGenerationAgent._generate_section_overview. -/
def generateSectionOverview (llm : Str → Str) (secKey : Str) (inner : List (Str × Str)) :
    Str :=
  let samples := joinSep (S "\n")
    ((inner.take 3).map fun p => p.1 ++ S ": " ++ p.2.take 200 ++ S "...")
  let secTitle := afterFirstSpaceOrSelf secKey
  let subs := joinSep (S ", ") (inner.map fun p => afterFirstSpaceOrSelf p.1)
  llm (overviewPrompt secTitle subs samples)

/-- ReportGenerationAgent._generate_placeholder_content. -/
def generatePlaceholder (llm : Str → Str) (reportTitle secTitle subTitle : Str) : Str :=
  if subTitle ≠ [] then llm (subPlaceholderPrompt subTitle secTitle reportTitle)
  else llm (secPlaceholderPrompt secTitle reportTitle)

/-- The assembler's lookup key `f"{subsection_num} {subsection_title}"`
(line 142). -/
def subKeyOf (sub : OSubsection) : Str := sub.number ++ ' ' :: sub.title

/-- Subsection part of the format_report loop (lines 139-154). -/
def renderSubsection (llm : Str → Str) (reportTitle secTitle : Str)
    (inner : List (Str × Str)) (sub : OSubsection) : Str :=
  match dictGet inner (subKeyOf sub) with
  | some content => S "### " ++ subKeyOf sub ++ S "\n\n" ++ content ++ S "\n\n"
  | none =>
    S "### " ++ subKeyOf sub ++ S "\n\n" ++
    generatePlaceholder llm reportTitle secTitle sub.title ++ S "\n\n"

/-- The assembler's section key `f"{section_num} {section_title}"` (line 109). -/
def sectionKeyOf (sec : OSection) : Str := sec.number ++ ' ' :: sec.title

/-- Per-section body of the format_report loop (lines 106-159). -/
def renderSection (llm : Str → Str) (contents : ContentMap) (title : Str)
    (sec : OSection) : Option Str :=
  if isSubstr (S "introduction") (lowerStr sec.title) then
    match generateIntroduction llm title contents with
    | none => none
    | some c => some (S "## " ++ sectionKeyOf sec ++ S "\n\n" ++ c ++ S "\n\n")
  else if isSubstr (S "conclusion") (lowerStr sec.title) then
    match generateConclusion llm title contents with
    | none => none
    | some c => some (S "## " ++ sectionKeyOf sec ++ S "\n\n" ++ c ++ S "\n\n")
  else
    match dictGet contents (sectionKeyOf sec) with
    | some inner =>
      some (S "## " ++ sectionKeyOf sec ++ S "\n\n" ++
        (if 0 < sec.subsections.length then
          generateSectionOverview llm (sectionKeyOf sec) inner ++ S "\n\n"
         else []) ++
        (sec.subsections.map (renderSubsection llm title sec.title inner)).flatten)
    | none =>
      some (S "## " ++ sectionKeyOf sec ++ S "\n\n" ++
        generatePlaceholder llm title sec.title [] ++ S "\n\n")

/-- ReportGenerationAgent.format_report. -/
def formatReport (llm : Str → Str) (contents : ContentMap) (title outline : Str) :
    Option Str :=
  match (parseOutlineStructure outline).mapM (renderSection llm contents title) with
  | none => none
  | some parts => some (S "# " ++ title ++ S "\n\n" ++ parts.flatten)

/-! ## src/main.py -/

def outlineTitleLine (query : Str) : Str :=
  S "# Research Paper Report on " ++ query ++ S "\n\n"

/-- Title normalization step of generate_outline_from_query (lines 61-62). -/
def titleNormalized (stripped query : Str) : Str :=
  if isPre (S "# Research Paper") stripped then stripped
  else outlineTitleLine query ++ stripped

/-- The conclusion-marker test of generate_outline_from_query (line 65). -/
def hasConclusionMarker (o : Str) : Bool :=
  isSubstr (S "## Conclusion") o || isSubstr (S "## 4. Conclusion") o

/-- main.generate_outline_from_query: the post-processing applied to the
completion-oracle response text. -/
def generateOutlineFromQuery (response query : Str) : Str :=
  let o := titleNormalized (pyStrip response) query
  if !(hasConclusionMarker o) then o ++ S "\n\n## 4. Conclusion" else o

inductive RunOutcome where
  | success (response : Str) (invocations : Nat)
  | fallback (invocations : Nat)
  | raised (invocations : Nat)
deriving DecidableEq

/-- Attempt loop of initialize_research_pipeline (lines 156-178).  Each
workflow invocation returns `.error` (an exception) or `.ok` carrying the
optional `response` field of the result dict.  `k` is the 0-based attempt
index, the fuel is `maxRetries - k`. -/
def attemptGo (agent : Nat → Except Unit (Option Str)) (maxRetries : Nat) :
    Nat → Nat → RunOutcome
  | _, 0 => .fallback maxRetries
  | k, fuel + 1 =>
    match agent k with
    | .ok (some r) =>
      if r ≠ [] ∧ isSubstr (S "Conclusion") r then .success r (k + 1)
      else attemptGo agent maxRetries (k + 1) fuel
    | .ok none => attemptGo agent maxRetries (k + 1) fuel
    | .error _ =>
      if k < maxRetries - 1 then attemptGo agent maxRetries (k + 1) fuel
      else .raised (k + 1)

def attemptLoop (agent : Nat → Except Unit (Option Str)) (maxRetries : Nat) : RunOutcome :=
  attemptGo agent maxRetries 0 maxRetries

structure PipelineReturn where
  response : Str
  outline : Str
  success : Bool
deriving DecidableEq

/-- initialize_research_pipeline from the retry loop on (lines 156-187):
the returned dict (or propagated exception), the number of workflow
invocations made by the loop, and whether the fallback path was entered. -/
def pipelineFromLoop (agent : Nat → Except Unit (Option Str))
    (outline fallbackReport : Str) (maxRetries : Nat) :
    Except Unit PipelineReturn × Nat × Bool :=
  match attemptLoop agent maxRetries with
  | .success r n => (.ok ⟨r, outline, true⟩, n, false)
  | .fallback n => (.ok ⟨fallbackReport, outline, true⟩, n, true)
  | .raised n => (.error (), n, false)

/-- The scan loop of parse_outline_sections; `cur` holds the current block's
lines in reverse. -/
def sectGo : List Str → List Str → List Str
  | [], cur => if cur = [] then [] else [joinSep (S "\n") cur.reverse]
  | l :: ls, cur =>
    if isSecLine l then
      (if cur = [] then [] else [joinSep (S "\n") cur.reverse]) ++ sectGo ls [l]
    else sectGo ls (l :: cur)

/-- main.parse_outline_sections. -/
def parseOutlineSections (outline : Str) : List Str :=
  sectGo (splitNl (pyStrip outline)) []

/-- Index of the first line starting with `## `, or 0 when there is none
(Python leaves start_idx at 0 in that case). -/
def firstSecIdx (lines : List Str) : Nat :=
  match lines.findIdx? (fun l => isSecLine l) with
  | some i => i
  | none => 0

/-- main.extract_section_content. -/
def extractSectionContent (text : Str) : Str :=
  let lines := splitNl (pyStrip text)
  joinSep (S "\n") (lines.drop (firstSecIdx lines))

/-- The stub appended when a block's generation raises (line 233); `none`
models the IndexError raised inside the except handler itself when the
block text has fewer than two whitespace-separated tokens. -/
def stubFor (b : Str) : Option Str :=
  match pySplitWS (pyStrip b) with
  | _ :: t1 :: _ =>
    some (S "\n## " ++ t1 ++ S "\n\nContent generation incomplete for this section.\n")
  | _ => none

/-- Per-block body of generate_report_by_sections (lines 222-233); `.error`
models an exception escaping the loop body. -/
def processBlock (agent : Str → Except Unit (Option Str)) (b : Str) :
    Except Unit (List Str) :=
  match agent b with
  | .ok (some r) => if r ≠ [] then .ok [extractSectionContent r] else .ok []
  | .ok none => .ok []
  | .error _ =>
    match stubFor b with
    | some stub => .ok [stub]
    | none => .error ()

def processBlocks (agent : Str → Except Unit (Option Str)) :
    List Str → Except Unit (List Str)
  | [] => .ok []
  | b :: bs =>
    match processBlock agent b with
    | .error e => .error e
    | .ok c =>
      match processBlocks agent bs with
      | .error e => .error e
      | .ok rest => .ok (c ++ rest)

/-- The outline of the intro block: sections[0], plus sections[1] when it
exists (lines 213-215). -/
def mkIntroOutline (s0 : Str) (rest : List Str) : Str :=
  match rest with
  | [] => s0
  | s1 :: _ => s0 ++ S "\n" ++ s1

/-- main.generate_report_by_sections.  The intro invocation (line 217) is
NOT wrapped in try/except, so its exception propagates; `.error` on the
empty list models the IndexError from sections[0]. -/
def generateReportBySections (agent : Str → Except Unit (Option Str))
    (sections : List Str) : Except Unit Str :=
  match sections with
  | [] => .error ()
  | s0 :: rest =>
    match agent (mkIntroOutline s0 rest) with
    | .error e => .error e
    | .ok introRes =>
      let fr0 : List Str :=
        match introRes with
        | some r => if r ≠ [] then [r] else []
        | none => []
      match processBlocks agent ((s0 :: rest).drop 2) with
      | .error e => .error e
      | .ok frs => .ok (joinSep (S "\n\n") (fr0 ++ frs))

/-! ## Reference (spec-side) definitions used by the claim statements -/

/-- Strip every line and drop the empty ones: the lines the scan loops of
the planner and the structure parse actually react to. -/
def cleanLines (ls : List Str) : List Str :=
  (ls.map pyStrip).filter (fun l => l ≠ [])

/-- The stripped, non-empty lines after the title line. -/
def scannedLines (outline : Str) : List Str :=
  cleanLines ((splitNl (pyStrip outline)).tail)

/-- Split a clean line list into the lines before the first section line,
and the blocks: each section line paired with the body lines following it. -/
def splitSecs : List Str → List Str × List (Str × List Str)
  | [] => ([], [])
  | l :: ls =>
    if isSecLine l then ([], (l, (splitSecs ls).1) :: (splitSecs ls).2)
    else (l :: (splitSecs ls).1, (splitSecs ls).2)

/-- Boolean list membership. -/
def memB (x : Str) : List Str → Bool
  | [] => false
  | y :: ys => x = y || memB x ys

/-- Boolean duplicate-freeness. -/
def nodupB : List Str → Bool
  | [] => true
  | x :: xs => !(memB x xs) && nodupB xs

/-- Declarative reading of the outline-parser spec for one block preceded by
`k` other blocks: number and title from the section text (synthetic `k+1.`
when unnumbered), subsection lines of the body attached in order. -/
def specBlock (k : Nat) (b : Str × List Str) : OSection :=
  let st := secKeyOf b.1
  let subs := (b.2.filter isSubsecLine).map mkSubFrom
  match matchSecNum st with
  | some (n, t) => ⟨n, t, subs⟩
  | none => ⟨natToStr (k + 1) ++ S ".", st, subs⟩

def specSectionsFrom (k : Nat) : List (Str × List Str) → List OSection
  | [] => []
  | b :: bs => specBlock k b :: specSectionsFrom (k + 1) bs

/-- Declarative reading of the outline-parser spec: one section per `## `
line in source order, subsection lines attached to the immediately
preceding section, subsection lines before any section silently dropped. -/
def specSections (ls : List Str) : List OSection :=
  specSectionsFrom 0 (splitSecs ls).2

/-- Append subsections to the current (head) section of the reversed
accumulator; with no current section they are dropped. -/
def extendSubs (acc : List OSection) (subs : List OSubsection) : List OSection :=
  match acc with
  | [] => []
  | cur :: rest => { cur with subsections := cur.subsections ++ subs } :: rest

/-- The query records the planner generates for a list of subsection lines. -/
def recsFor (llm : Str → Str) (title secKey : Str) (lines : List Str) : InnerMap :=
  lines.map fun b => (b, mkRecord llm title secKey b)

/-- The query records the planner generates for the body of one block. -/
def blockRecords (llm : Str → Str) (title secKey : Str) (body : List Str) : InnerMap :=
  recsFor llm title secKey (body.filter isSubsecLine)

def blockEntry (llm : Str → Str) (title : Str) (b : Str × List Str) : Str × InnerMap :=
  (secKeyOf b.1, blockRecords llm title (secKeyOf b.1) b.2)

/-- Declarative reading of the query planner on clean outlines (before the
"General" fill). -/
def specQueryMap (llm : Str → Str) (title : Str) (blocks : List (Str × List Str)) :
    QueryMap :=
  blocks.map (blockEntry llm title)

/-- The planner's current-section key after processing the given blocks. -/
def lastKeyFrom (cs : Str) : List (Str × List Str) → Str
  | [] => cs
  | b :: bs => lastKeyFrom (secKeyOf b.1) bs

/-- A subsection line in canonical dotted form `d.d. Title`: the planner's
raw-line key and the assembler's normalized key coincide on it. -/
def canonicalSubsecLine (b : Str) : Bool :=
  match matchSubsec b with
  | some (n, t) => b = n ++ '.' :: ' ' :: t
  | none => false

/-- A block whose section text has the exact form `d. Title` (single space),
whose introduction/conclusion variants carry no subsection lines, and whose
subsection lines are canonical and duplicate-free. -/
def canonicalBlock (b : Str × List Str) : Bool :=
  match matchSecNum (secKeyOf b.1) with
  | some (n, t) =>
    secKeyOf b.1 = n ++ ' ' :: t && t ≠ [] &&
    (if isSubstr (S "introduction") (lowerStr t) || isSubstr (S "conclusion") (lowerStr t)
     then b.2.all (fun l => !(isSubsecLine l))
     else (b.2.filter isSubsecLine).all canonicalSubsecLine &&
          nodupB (b.2.filter isSubsecLine))
  | none => false

/-- A canonical outline: no subsection line before the first section line,
every block canonical, section texts pairwise distinct. -/
def wellFormedOutline (outline : Str) : Bool :=
  (splitSecs (scannedLines outline)).1.all (fun l => !(isSubsecLine l)) &&
  (splitSecs (scannedLines outline)).2.all canonicalBlock &&
  nodupB ((splitSecs (scannedLines outline)).2.map (fun b => secKeyOf b.1))

/-- The content map has an entry for one planner map entry. -/
def coversEntry (contents : ContentMap) (p : Str × InnerMap) : Bool :=
  match dictGet contents p.1 with
  | some cin => p.2.all fun q => (dictGet cin q.1).isSome
  | none => false

/-- The content map has an entry for every query record of the planner map. -/
def coversQueryMap (contents : ContentMap) (qm : QueryMap) : Bool :=
  qm.all (coversEntry contents)

/-- Spec reading of one assembled subsection block: heading immediately
followed by the mapped content. -/
def expectedSubsection (inner : List (Str × Str)) (sub : OSubsection) : Str :=
  S "### " ++ subKeyOf sub ++ S "\n\n" ++
    ((dictGet inner (subKeyOf sub)).getD []) ++ S "\n\n"

/-- Spec reading of one assembled section: heading exactly once;
introduction/conclusion regenerated fresh; otherwise an overview paragraph
(when subsections exist) and each subsection heading immediately followed by
its mapped content. -/
def expectedSection (llm : Str → Str) (contents : ContentMap) (title : Str)
    (sec : OSection) : Option Str :=
  if isSubstr (S "introduction") (lowerStr sec.title) then
    (generateIntroduction llm title contents).map
      fun c => S "## " ++ sectionKeyOf sec ++ S "\n\n" ++ c ++ S "\n\n"
  else if isSubstr (S "conclusion") (lowerStr sec.title) then
    (generateConclusion llm title contents).map
      fun c => S "## " ++ sectionKeyOf sec ++ S "\n\n" ++ c ++ S "\n\n"
  else
    some (S "## " ++ sectionKeyOf sec ++ S "\n\n" ++
      (if 0 < sec.subsections.length then
        generateSectionOverview llm (sectionKeyOf sec)
          ((dictGet contents (sectionKeyOf sec)).getD []) ++ S "\n\n"
       else []) ++
      (sec.subsections.map
        (expectedSubsection ((dictGet contents (sectionKeyOf sec)).getD []))).flatten)

/-- Spec reading of the assembled report: title heading, then the canonical
section blocks in outline order. -/
def expectedReport (llm : Str → Str) (contents : ContentMap) (title outline : Str) :
    Option Str :=
  ((specSections (scannedLines outline)).mapM (expectedSection llm contents title)).map
    fun parts => S "# " ++ title ++ S "\n\n" ++ parts.flatten

/-- C6's claimed sampling: one snippet from each section whose key contains
neither "introduction" nor "conclusion", capped at five. -/
def claimedConclusionSnippets (contents : ContentMap) : List Str :=
  ((contents.filter fun p =>
      !(isSubstr (S "introduction") (lowerStr p.1)) &&
      !(isSubstr (S "conclusion") (lowerStr p.1))).filterMap
    fun p => (p.2.map Prod.snd).head?).take 5

/-- Amended sampling for C6: one snippet (the first subsection value) from
each section whose key does not contain "conclusion" — introduction sections
included — capped at five. -/
def amendedConclusionSnippets (contents : ContentMap) : List Str :=
  ((contents.filter fun p => !(isSubstr (S "conclusion") (lowerStr p.1))).filterMap
    fun p => (p.2.map Prod.snd).head?).take 5

/-- Spec reading of the intro block's contribution to the fallback report. -/
def introContribution (agent : Str → Except Unit (Option Str)) (s0 : Str)
    (rest : List Str) : List Str :=
  match agent (mkIntroOutline s0 rest) with
  | .ok (some r) => if r ≠ [] then [r] else []
  | _ => []

/-- Spec reading of one non-intro block's contribution to the fallback
report: its extracted content on success, nothing on an empty response, the
stub line on a caught exception. -/
def blockContribution (agent : Str → Except Unit (Option Str)) (b : Str) : List Str :=
  match agent b with
  | .ok (some r) => if r ≠ [] then [extractSectionContent r] else []
  | .ok none => []
  | .error _ => [(stubFor b).getD []]

/-- A concrete well-formed outline exercising the assembler round-trip. -/
def c1Outline : Str :=
  S "# T\n## 1. Introduction\n## 2. Background\n2.1. History\n## 3. Conclusion"

/-- A constant completion oracle for the round-trip instance. -/
def c1Llm : Str → Str := fun _ => S "G"

/-- The query map the planner produces on `c1Outline` with oracle `c1Llm`. -/
def c1Qm : QueryMap :=
  [(S "1. Introduction", [(S "General", ⟨S "G", S "INDEX"⟩)]),
   (S "2. Background", [(S "2.1. History", ⟨S "G", S "INDEX"⟩)]),
   (S "3. Conclusion", [(S "General", ⟨S "G", S "INDEX"⟩)])]

/-- A content map covering every record of `c1Qm`. -/
def c1Contents : ContentMap :=
  [(S "1. Introduction", [(S "General", S "IC")]),
   (S "2. Background", [(S "2.1. History", S "HC")]),
   (S "3. Conclusion", [(S "General", S "CC")])]

/-! ## General lemmas -/

theorem dictGet_dictSet_self {α : Type} (m : List (Str × α)) (k : Str) (v : α) :
    dictGet (dictSet m k v) k = some v := by
  induction m with
  | nil => simp [dictSet, dictGet]
  | cons p rest ih =>
    obtain ⟨k', v'⟩ := p
    by_cases h : k' = k
    · subst h; simp [dictSet, dictGet]
    · simp [dictSet, dictGet, h, ih]

theorem dictGet_dictSet_ne {α : Type} (m : List (Str × α)) (k k' : Str) (v : α)
    (h : k' ≠ k) : dictGet (dictSet m k' v) k = dictGet m k := by
  induction m with
  | nil => simp [dictSet, dictGet, h]
  | cons p rest ih =>
    obtain ⟨k'', v''⟩ := p
    by_cases h2 : k'' = k'
    · subst h2; simp [dictSet, dictGet, h]
    · simp [dictSet, dictGet, h2, ih]

theorem dictSet_fresh {α : Type} (m : List (Str × α)) (k : Str) (v : α)
    (h : k ∉ m.map Prod.fst) : dictSet m k v = m ++ [(k, v)] := by
  induction m with
  | nil => simp [dictSet]
  | cons p rest ih =>
    obtain ⟨k', v'⟩ := p
    simp only [List.map_cons, List.mem_cons] at h
    push_neg at h
    simp [dictSet, Ne.symm h.1, ih h.2]

theorem dictSet_mid {α : Type} (done : List (Str × α)) (k : Str) (v w : α)
    (rest : List (Str × α)) (h : k ∉ done.map Prod.fst) :
    dictSet (done ++ (k, v) :: rest) k w = done ++ (k, w) :: rest := by
  induction done with
  | nil => simp [dictSet]
  | cons p dn ih =>
    obtain ⟨k', v'⟩ := p
    simp only [List.map_cons, List.mem_cons] at h
    push_neg at h
    simp [dictSet, Ne.symm h.1, ih h.2]

theorem dictGet_mid {α : Type} (done : List (Str × α)) (k : Str) (v : α)
    (rest : List (Str × α)) (h : k ∉ done.map Prod.fst) :
    dictGet (done ++ (k, v) :: rest) k = some v := by
  induction done with
  | nil => simp [dictGet]
  | cons p dn ih =>
    obtain ⟨k', v'⟩ := p
    simp only [List.map_cons, List.mem_cons] at h
    push_neg at h
    simp [dictGet, Ne.symm h.1, ih h.2]

theorem mem_keys_dictSet {α : Type} (m : List (Str × α)) (k x : Str) (v : α) :
    x ∈ (dictSet m k v).map Prod.fst ↔ x ∈ m.map Prod.fst ∨ x = k := by
  induction m with
  | nil => simp [dictSet]
  | cons p rest ih =>
    obtain ⟨k', v'⟩ := p
    by_cases h : k' = k
    · rw [show dictSet ((k', v') :: rest) k v = (k, v) :: rest by simp [dictSet, h]]
      subst h
      simp only [List.map_cons, List.mem_cons]
      tauto
    · rw [show dictSet ((k', v') :: rest) k v = (k', v') :: dictSet rest k v by
        simp [dictSet, h]]
      simp only [List.map_cons, List.mem_cons, ih]
      tauto

theorem nodup_keys_dictSet {α : Type} (m : List (Str × α)) (k : Str) (v : α)
    (h : (m.map Prod.fst).Nodup) : ((dictSet m k v).map Prod.fst).Nodup := by
  induction m with
  | nil => simp [dictSet]
  | cons p rest ih =>
    obtain ⟨k', v'⟩ := p
    simp only [List.map_cons, List.nodup_cons] at h
    by_cases h2 : k' = k
    · rw [show dictSet ((k', v') :: rest) k v = (k, v) :: rest by simp [dictSet, h2]]
      simp only [List.map_cons, List.nodup_cons]
      exact ⟨h2 ▸ h.1, h.2⟩
    · rw [show dictSet ((k', v') :: rest) k v = (k', v') :: dictSet rest k v by
        simp [dictSet, h2]]
      simp only [List.map_cons, List.nodup_cons]
      refine ⟨fun hm => ?_, ih h.2⟩
      rcases (mem_keys_dictSet rest k k' v).mp hm with h3 | h3
      · exact h.1 h3
      · exact h2 h3

/-- A keyed fold of dict assignments leaves absent keys untouched. -/
theorem dictGet_foldl_of_not_mem {α β : Type} (G : Str → β → α) (k : Str)
    (bs : List (Str × β)) (m : List (Str × α)) (hq : k ∉ bs.map Prod.fst) :
    dictGet (bs.foldl (fun m p => dictSet m p.1 (G p.1 p.2)) m) k = dictGet m k := by
  induction bs generalizing m with
  | nil => rfl
  | cons q qs ihq =>
    simp only [List.map_cons, List.mem_cons] at hq
    push_neg at hq
    simp only [List.foldl_cons]
    rw [ihq _ hq.2]
    exact dictGet_dictSet_ne _ _ _ _ (Ne.symm hq.1)

/-- Looking up a key set by a keyed fold of dict assignments. -/
theorem dictGet_foldl {α β : Type} (l : List (Str × β)) (G : Str → β → α)
    (acc : List (Str × α)) (k : Str) (v : β)
    (hnd : (l.map Prod.fst).Nodup) (hmem : (k, v) ∈ l) :
    dictGet (l.foldl (fun m p => dictSet m p.1 (G p.1 p.2)) acc) k = some (G k v) := by
  induction l generalizing acc with
  | nil => cases hmem
  | cons p rest ih =>
    obtain ⟨k', v'⟩ := p
    simp only [List.map_cons, List.nodup_cons] at hnd
    rcases List.mem_cons.mp hmem with h | h
    · have hk : k' = k := (Prod.ext_iff.mp h).1.symm
      have hv : v' = v := (Prod.ext_iff.mp h).2.symm
      subst hk; subst hv
      simp only [List.foldl_cons]
      rw [dictGet_foldl_of_not_mem G _ rest _ hnd.1, dictGet_dictSet_self]
    · simp only [List.foldl_cons]
      exact ih _ hnd.2 h

theorem isPre_self_append (x y : Str) : isPre x (x ++ y) = true := by
  induction x with
  | nil => rfl
  | cons a as ih => simp [isPre, ih]

theorem isPre_of_isPre_append (p x y : Str) (h : isPre p x = true) :
    isPre p (x ++ y) = true := by
  induction p generalizing x with
  | nil => rfl
  | cons a as ih =>
    cases x with
    | nil => simp [isPre] at h
    | cons b bs =>
      simp only [isPre, Bool.and_eq_true, beq_iff_eq] at h
      simp [isPre, h.1, ih bs h.2]

theorem isSuf_append_self (n m : Str) : isSuf n (m ++ n) = true := by
  unfold isSuf
  rw [List.reverse_append]
  exact isPre_self_append n.reverse m.reverse

/-- Flattening one-element takes is a filterMap of heads. -/
theorem flatten_map_take_one {α β : Type} (l : List α) (g : α → List β) :
    (l.map fun x => (g x).take 1).flatten = l.filterMap fun x => (g x).head? := by
  induction l with
  | nil => rfl
  | cons x xs ih =>
    cases hgx : g x with
    | nil => simp [hgx, ih]
    | cons y ys => simp [hgx, ih, List.take]

/-! ## C7: outline post-processing -/

/-- C7: for every oracle response and query, with the conclusion marker
sought in the title-normalized outline (the string the code tests), the
post-processed outline is exactly the normalized text with a bare
`## 4. Conclusion` appended when no marker occurs (in particular it ends
with that heading), is returned unchanged when a marker occurs, and a
missing title line is prepended during normalization. -/
theorem C7_outline_postprocessing (response query : Str) :
    (hasConclusionMarker (titleNormalized (pyStrip response) query) = false →
      generateOutlineFromQuery response query =
        titleNormalized (pyStrip response) query ++ S "\n\n## 4. Conclusion" ∧
      isSuf (S "\n\n## 4. Conclusion") (generateOutlineFromQuery response query) = true) ∧
    (hasConclusionMarker (titleNormalized (pyStrip response) query) = true →
      generateOutlineFromQuery response query = titleNormalized (pyStrip response) query) ∧
    (isPre (S "# Research Paper") (pyStrip response) = false →
      titleNormalized (pyStrip response) query =
        S "# Research Paper Report on " ++ query ++ S "\n\n" ++ pyStrip response) := by
  refine ⟨fun h => ⟨?_, ?_⟩, fun h => ?_, fun h => ?_⟩
  · simp [generateOutlineFromQuery, h]
  · simp only [generateOutlineFromQuery, h, Bool.not_false, if_pos]
    exact isSuf_append_self _ _
  · simp [generateOutlineFromQuery, h]
  · simp [titleNormalized, h, outlineTitleLine, List.append_assoc]

theorem C7_outline_postprocessing_witness :
    hasConclusionMarker (titleNormalized (pyStrip (S "## 1. Intro")) (S "q")) = false ∧
    generateOutlineFromQuery (S "## 1. Intro") (S "q") =
      titleNormalized (pyStrip (S "## 1. Intro")) (S "q") ++ S "\n\n## 4. Conclusion" :=
  ⟨by decide, ((C7_outline_postprocessing (S "## 1. Intro") (S "q")).1 (by decide)).1⟩

/-! ## C5: content quality gate -/

theorem expanded_ne_fallbackPrompt (q a b : Str) :
    expandedQueryPrompt q ≠ fallbackPrompt a b := by
  intro h
  have h1 : (expandedQueryPrompt q).head? = some 'B' := rfl
  have h2 : (fallbackPrompt a b).head? = some 'P' := rfl
  rw [h, h2] at h1
  simp at h1

/-- C5 counterexample: with a retrieval answer of 60 whitespace characters —
60 (that is, at least 50) characters long, hence covered by the claim's
"primary answer of 50 or more characters is stored unchanged with no
fallback call" — generate_section_content still issues the fallback prompt
once and stores its result, because the code measures the stripped length. -/
theorem C5_content_gate_counterexample :
    (primaryAnswer (fun _ => S "FB") (fun _ => List.replicate 60 ' ')
        ⟨S "q", S "INDEX"⟩).length = 60 ∧
    (processRecord (fun _ => S "FB") (fun _ => List.replicate 60 ' ')
        (S "1. A") (S "1.1. X") ⟨S "q", S "INDEX"⟩).1 ≠
      primaryAnswer (fun _ => S "FB") (fun _ => List.replicate 60 ' ') ⟨S "q", S "INDEX"⟩ ∧
    (processRecord (fun _ => S "FB") (fun _ => List.replicate 60 ' ')
        (S "1. A") (S "1.1. X") ⟨S "q", S "INDEX"⟩).2.count
      (fallbackPrompt (S "1.1. X") (S "1. A")) = 1 :=
  ⟨by decide, by decide, by decide⟩

/-- C5 amended: the quality gate measures the whitespace-stripped primary
answer.  For every query record stored by generate_section_content, if the
stripped primary answer is shorter than 50 characters the simplified
fallback completion prompt is issued exactly once and its result is stored
regardless of length; if the stripped primary answer has 50 or more
characters it is stored unchanged with no fallback call. -/
theorem C5_content_gate_amended (llm qe : Str → Str) (queries : QueryMap)
    (sk sub : Str) (inner : InnerMap) (r : QueryRecord)
    (hq : (queries.map Prod.fst).Nodup)
    (hin : (inner.map Prod.fst).Nodup)
    (hmem : (sk, inner) ∈ queries) (hmem2 : (sub, r) ∈ inner) :
    (∃ cin, dictGet (generateSectionContent llm qe queries) sk = some cin ∧
      dictGet cin sub = some (processRecord llm qe sk sub r).1) ∧
    ((pyStrip (primaryAnswer llm qe r)).length < 50 →
      (processRecord llm qe sk sub r).1 = llm (fallbackPrompt sub sk) ∧
      (processRecord llm qe sk sub r).2.count (fallbackPrompt sub sk) = 1) ∧
    (50 ≤ (pyStrip (primaryAnswer llm qe r)).length →
      (processRecord llm qe sk sub r).1 = primaryAnswer llm qe r ∧
      (processRecord llm qe sk sub r).2.count (fallbackPrompt sub sk) = 0) := by
  refine ⟨?_, fun h => ?_, fun h => ?_⟩
  · refine ⟨(inner.foldl
      (fun iacc q => dictSet iacc q.1 (processRecord llm qe sk q.1 q.2).1) []), ?_, ?_⟩
    · exact dictGet_foldl queries
        (fun a b => b.foldl
          (fun iacc q => dictSet iacc q.1 (processRecord llm qe a q.1 q.2).1) [])
        [] sk inner hq hmem
    · exact dictGet_foldl inner (fun a b => (processRecord llm qe sk a b).1) [] sub r
        hin hmem2
  · constructor
    · simp [processRecord, h]
    · simp only [processRecord, h, if_pos]
      by_cases hc : r.classification = S "LLM"
      · simp [hc, List.count_cons, expanded_ne_fallbackPrompt r.query sub sk]
      · simp [hc, List.count_cons]
  · have h' : ¬ (pyStrip (primaryAnswer llm qe r)).length < 50 := by omega
    constructor
    · simp [processRecord, h']
    · simp only [processRecord, h', if_neg, ite_false]
      by_cases hc : r.classification = S "LLM"
      · simp [hc, List.count_cons, expanded_ne_fallbackPrompt r.query sub sk]
      · simp [hc]

theorem C5_content_gate_amended_witness :
    (∃ cin, dictGet (generateSectionContent (fun _ => S "Z") (fun _ => S "short")
          [(S "1. A", [(S "1.1. X", ⟨S "q", S "INDEX"⟩)])]) (S "1. A") = some cin ∧
        dictGet cin (S "1.1. X") =
          some (processRecord (fun _ => S "Z") (fun _ => S "short") (S "1. A") (S "1.1. X")
            ⟨S "q", S "INDEX"⟩).1) ∧
    (processRecord (fun _ => S "Z") (fun _ => S "short") (S "1. A") (S "1.1. X")
        ⟨S "q", S "INDEX"⟩).1 = S "Z" := by
  have h := C5_content_gate_amended (fun _ => S "Z") (fun _ => S "short")
    [(S "1. A", [(S "1.1. X", ⟨S "q", S "INDEX"⟩)])] (S "1. A") (S "1.1. X")
    [(S "1.1. X", ⟨S "q", S "INDEX"⟩)] ⟨S "q", S "INDEX"⟩
    (by decide) (by decide) (by decide) (by decide)
  exact ⟨h.1, (h.2.1 (by decide)).1⟩

/-! ## C6: conclusion snippet sampling -/

/-- C6 counterexample: _generate_conclusion's sampling excludes only
sections whose key contains "conclusion"; a section whose key contains
"introduction" DOES contribute a snippet, contradicting the claimed
sampling that excludes introduction sections. -/
theorem C6_conclusion_sampling_counterexample :
    conclusionSnippets
        [(S "1. Introduction", [(S "General", S "IC")]),
         (S "2. Body", [(S "2.1. X", S "BC")])] = [S "IC", S "BC"] ∧
    claimedConclusionSnippets
        [(S "1. Introduction", [(S "General", S "IC")]),
         (S "2. Body", [(S "2.1. X", S "BC")])] = [S "BC"] ∧
    conclusionSnippets
        [(S "1. Introduction", [(S "General", S "IC")]),
         (S "2. Body", [(S "2.1. X", S "BC")])] ≠
      claimedConclusionSnippets
        [(S "1. Introduction", [(S "General", S "IC")]),
         (S "2. Body", [(S "2.1. X", S "BC")])] :=
  ⟨by decide, by decide, by decide⟩

/-- C6 amended: _generate_conclusion builds its prompt context by sampling
one snippet (the first subsection value) from each section whose key does
not contain "conclusion" (case-insensitive) — introduction sections
included — taking at most 5 snippets in total. -/
theorem C6_conclusion_sampling_amended (llm : Str → Str) (title : Str)
    (contents : ContentMap) (ts : List Str)
    (h : ((contents.map Prod.fst).filter fun k =>
        !(isSubstr (S "conclusion") (lowerStr k)) &&
        !(isSubstr (S "introduction") (lowerStr k))).mapM split1Snd = some ts) :
    generateConclusion llm title contents =
      some (llm (conclusionPrompt title (joinSep (S ", ") ts)
        (joinSep (S "\n") (amendedConclusionSnippets contents)))) ∧
    (amendedConclusionSnippets contents).length ≤ 5 := by
  have hsn : conclusionSnippets contents = amendedConclusionSnippets contents := by
    unfold conclusionSnippets amendedConclusionSnippets
    rw [flatten_map_take_one]
  constructor
  · simp only [generateConclusion, conclusionTopics, h, hsn]
  · unfold amendedConclusionSnippets
    rw [List.length_take]
    exact min_le_left _ _

theorem C6_conclusion_sampling_amended_witness :
    generateConclusion (fun _ => S "C") (S "T")
        [(S "1. Introduction", [(S "General", S "IC")]),
         (S "2. Body", [(S "2.1. X", S "BC")])] = some (S "C") ∧
    (amendedConclusionSnippets
        [(S "1. Introduction", [(S "General", S "IC")]),
         (S "2. Body", [(S "2.1. X", S "BC")])]).length ≤ 5 := by
  have h := C6_conclusion_sampling_amended (fun _ => S "C") (S "T")
    [(S "1. Introduction", [(S "General", S "IC")]),
     (S "2. Body", [(S "2.1. X", S "BC")])]
    [S "Body"] (by decide)
  exact ⟨h.1, h.2⟩

/-! ## C2: orchestrator retry -/

theorem attemptGo_success (agent : Nat → Except Unit (Option Str)) (mr : Nat) (r : Str)
    (hlast : agent (mr - 1) = .ok (some r)) (hr : r ≠ [])
    (hc : isSubstr (S "Conclusion") r = true)
    (hearly : ∀ i, i < mr - 1 → ∃ ri, agent i = .ok (some ri) ∧
        isSubstr (S "Conclusion") ri = false) :
    ∀ fuel k, k + fuel = mr → 1 ≤ fuel →
      attemptGo agent mr k fuel = .success r mr := by
  intro fuel
  induction fuel with
  | zero => intro k hk h1; omega
  | succ f ih =>
    intro k hk _
    by_cases hk1 : k = mr - 1
    · subst hk1
      have hms : mr - 1 + 1 = mr := by omega
      simp only [attemptGo, hlast]
      rw [if_pos ⟨hr, hc⟩, hms]
    · have hklt : k < mr - 1 := by omega
      obtain ⟨ri, hai, hci⟩ := hearly k hklt
      simp only [attemptGo, hai]
      rw [if_neg (by simp [hci])]
      exact ih (k + 1) (by omega) (by omega)

/-- C2: if each of the first maxRetries - 1 attempts yields a response
lacking the literal substring "Conclusion" and the maxRetries-th attempt
yields a non-empty response containing it, initialize_research_pipeline
invokes the workflow exactly maxRetries times (0-based attempts 0 through
maxRetries - 1) and returns that last response with the outline and
success = true, without raising and without entering the fallback path
(final component false). -/
theorem C2_orchestrator_retry (agent : Nat → Except Unit (Option Str))
    (outline fb r : Str) (mr : Nat) (hmr : 1 ≤ mr)
    (hearly : ∀ i, i < mr - 1 → ∃ ri, agent i = .ok (some ri) ∧
        isSubstr (S "Conclusion") ri = false)
    (hlast : agent (mr - 1) = .ok (some r)) (hr : r ≠ [])
    (hc : isSubstr (S "Conclusion") r = true) :
    pipelineFromLoop agent outline fb mr =
      (Except.ok ⟨r, outline, true⟩, mr, false) := by
  have h := attemptGo_success agent mr r hlast hr hc hearly mr 0 (by omega) hmr
  unfold pipelineFromLoop attemptLoop
  rw [h]

theorem C2_orchestrator_retry_witness :
    pipelineFromLoop
      (fun k => if k < 2 then Except.ok (some (S "partial draft"))
                else Except.ok (some (S "Results and Conclusion: done.")))
      (S "OUTLINE") (S "FB") 3 =
      (Except.ok ⟨S "Results and Conclusion: done.", S "OUTLINE", true⟩, 3, false) := by
  refine C2_orchestrator_retry _ _ _ _ 3 (by omega)
    (fun i hi => ⟨S "partial draft", ?_, by decide⟩) ?_ (by decide) (by decide)
  · have hi2 : i < 2 := by omega
    simp [hi2]
  · rfl

/-! ## C3: fallback block isolation -/

theorem processBlocks_contributions (agent : Str → Except Unit (Option Str))
    (bs : List Str)
    (h : ∀ b ∈ bs, agent b = .error () → (stubFor b).isSome = true) :
    processBlocks agent bs = .ok ((bs.map (blockContribution agent)).flatten) := by
  induction bs with
  | nil => rfl
  | cons b rest ih =>
    have hb := h b (List.mem_cons_self b rest)
    have hrest : ∀ x ∈ rest, agent x = .error () → (stubFor x).isSome = true :=
      fun x hx => h x (List.mem_cons_of_mem b hx)
    simp only [List.map_cons, List.flatten_cons]
    cases hab : agent b with
    | ok v =>
      cases v with
      | some r =>
        by_cases hre : r = []
        · simp [processBlocks, processBlock, blockContribution, hab, hre, ih hrest]
        · simp [processBlocks, processBlock, blockContribution, hab, hre, ih hrest]
      | none => simp [processBlocks, processBlock, blockContribution, hab, ih hrest]
    | error e =>
      cases e
      obtain ⟨stub, hstub⟩ := Option.isSome_iff_exists.mp (hb hab)
      simp [processBlocks, processBlock, blockContribution, hab, hstub, ih hrest]

/-- C3 counterexample: the intro-block invocation (main.py line 217) is not
wrapped in try/except, so when it raises, the exception escapes
generate_report_by_sections instead of being replaced by a stub — refuting
"no block-level exception escapes". -/
theorem C3_fallback_blocks_counterexample :
    generateReportBySections
      (fun s => if s = S "# T\n## 1. Intro" then .error () else .ok (some (S "ok")))
      [S "# T", S "## 1. Intro", S "## 2. A"] = .error () := rfl

/-- C3 amended: provided the intro-block invocation does not raise and every
failing non-intro block has at least two whitespace-separated tokens (with
fewer, the stub construction itself raises an IndexError that escapes),
every non-intro block whose invocation raises has the exception caught and
contributes exactly the stub line ending in the literal text "Content
generation incomplete for this section.", and the blocks' contributions are
concatenated in original outline order. -/
theorem C3_fallback_blocks_amended (agent : Str → Except Unit (Option Str))
    (s0 : Str) (rest : List Str) (v : Option Str)
    (hintro : agent (mkIntroOutline s0 rest) = .ok v)
    (hblocks : ∀ b ∈ (s0 :: rest).drop 2, agent b = .error () →
        (stubFor b).isSome = true) :
    generateReportBySections agent (s0 :: rest) =
      .ok (joinSep (S "\n\n") (introContribution agent s0 rest ++
        (((s0 :: rest).drop 2).map (blockContribution agent)).flatten)) ∧
    (∀ b t0 t1 ts, pySplitWS (pyStrip b) = t0 :: t1 :: ts → agent b = .error () →
      blockContribution agent b =
        [S "\n## " ++ t1 ++ S "\n\nContent generation incomplete for this section.\n"]) := by
  constructor
  · simp only [generateReportBySections, hintro, introContribution,
      processBlocks_contributions agent _ hblocks]
    cases v <;> rfl
  · intro b t0 t1 ts hsplit hab
    simp [blockContribution, hab, stubFor, hsplit]

theorem C3_fallback_blocks_amended_witness :
    generateReportBySections
      (fun s => if s = S "## 3. B" then .error () else .ok (some (S "## H\nbody")))
      [S "# T", S "## 1. Intro", S "## 2. A", S "## 3. B"] =
      .ok (joinSep (S "\n\n")
        (introContribution
            (fun s => if s = S "## 3. B" then .error () else .ok (some (S "## H\nbody")))
            (S "# T") [S "## 1. Intro", S "## 2. A", S "## 3. B"] ++
         (([S "## 2. A", S "## 3. B"]).map (blockContribution
            (fun s => if s = S "## 3. B" then .error () else .ok (some (S "## H\nbody"))))).flatten)) ∧
    blockContribution
        (fun s => if s = S "## 3. B" then .error () else .ok (some (S "## H\nbody")))
        (S "## 3. B") =
      [S "\n## " ++ S "3." ++ S "\n\nContent generation incomplete for this section.\n"] := by
  have h := C3_fallback_blocks_amended
    (fun s => if s = S "## 3. B" then .error () else .ok (some (S "## H\nbody")))
    (S "# T") [S "## 1. Intro", S "## 2. A", S "## 3. B"] (some (S "## H\nbody"))
    (by decide) (by decide)
  exact ⟨h.1, h.2 (S "## 3. B") (S "##") (S "3.") [S "B"] (by decide) (by decide)⟩

/-! ## C10: parse_outline_sections is a partition -/

theorem joinSep_cons_ne_nil (sep x : Str) (ys : List Str) (h : ys ≠ []) :
    joinSep sep (x :: ys) = x ++ sep ++ joinSep sep ys := by
  cases ys with
  | nil => exact absurd rfl h
  | cons y ys' => rfl

theorem joinSep_append (sep : Str) (xs ys : List Str) (hx : xs ≠ []) (hy : ys ≠ []) :
    joinSep sep (xs ++ ys) = joinSep sep xs ++ sep ++ joinSep sep ys := by
  induction xs with
  | nil => exact absurd rfl hx
  | cons x xs' ih =>
    cases xs' with
    | nil =>
      simp only [List.singleton_append]
      rw [joinSep_cons_ne_nil sep x ys hy]
      rfl
    | cons x2 xs'' =>
      have h2 : (x2 :: xs'') ++ ys ≠ [] := by simp
      rw [List.cons_append, joinSep_cons_ne_nil sep x _ h2,
        joinSep_cons_ne_nil sep x (x2 :: xs'') (by simp), ih (by simp)]
      simp [List.append_assoc]

theorem splitNl_ne_nil (s : Str) : splitNl s ≠ [] := by
  cases s with
  | nil => simp [splitNl]
  | cons c cs =>
    by_cases h : c = '\n'
    · simp [splitNl, h]
    · simp only [splitNl, if_neg h]
      cases hs : splitNl cs <;> simp

theorem joinSep_splitNl (s : Str) : joinSep (S "\n") (splitNl s) = s := by
  induction s with
  | nil => rfl
  | cons c cs ih =>
    by_cases h : c = '\n'
    · subst h
      rw [show splitNl ('\n' :: cs) = [] :: splitNl cs from by simp [splitNl]]
      rw [joinSep_cons_ne_nil _ _ _ (splitNl_ne_nil cs), ih]
      rfl
    · rcases hs : splitNl cs with _ | ⟨g, gs⟩
      · exact absurd hs (splitNl_ne_nil cs)
      · rw [show splitNl (c :: cs) = (c :: g) :: gs from by
          unfold splitNl; rw [if_neg h, hs]]
        rw [hs] at ih
        cases gs with
        | nil =>
          simp only [joinSep] at ih ⊢
          rw [ih]
        | cons g2 gs' =>
          rw [joinSep_cons_ne_nil _ _ _ (by simp)] at ih ⊢
          simp only [List.cons_append]
          rw [ih]

theorem splitNl_nlFree (s : Str) : ∀ l ∈ splitNl s, '\n' ∉ l := by
  induction s with
  | nil =>
    intro l hl
    simp only [splitNl, List.mem_singleton] at hl
    subst hl; simp
  | cons c cs ih =>
    intro l hl
    by_cases h : c = '\n'
    · subst h
      rw [show splitNl ('\n' :: cs) = [] :: splitNl cs from by simp [splitNl]] at hl
      rcases List.mem_cons.mp hl with rfl | hl2
      · simp
      · exact ih l hl2
    · rcases hs : splitNl cs with _ | ⟨g, gs⟩
      · exact absurd hs (splitNl_ne_nil cs)
      · rw [show splitNl (c :: cs) = (c :: g) :: gs from by
          unfold splitNl; rw [if_neg h, hs]] at hl
        rcases List.mem_cons.mp hl with rfl | hl2
        · intro hmem
          rcases List.mem_cons.mp hmem with heq | h2
          · exact h heq.symm
          · exact ih g (by rw [hs]; exact List.mem_cons_self g gs) h2
        · exact ih l (by rw [hs]; exact List.mem_cons_of_mem g hl2)

theorem splitNl_of_nlFree (x : Str) (h : '\n' ∉ x) : splitNl x = [x] := by
  induction x with
  | nil => rfl
  | cons c cs ih =>
    simp only [List.mem_cons] at h
    push_neg at h
    simp only [splitNl, if_neg (Ne.symm h.1), ih h.2]

theorem splitNl_cons_ne (d : Char) (t : Str) (hd : ¬ d = '\n') :
    splitNl (d :: t) = match splitNl t with
      | g :: gs => (d :: g) :: gs
      | [] => [[d]] := by
  conv_lhs => unfold splitNl
  rw [if_neg hd]

theorem splitNl_append_nl (x r : Str) (h : '\n' ∉ x) :
    splitNl (x ++ '\n' :: r) = x :: splitNl r := by
  induction x with
  | nil => simp [splitNl]
  | cons c cs ih =>
    simp only [List.mem_cons] at h
    push_neg at h
    have hcn : ¬ (c = '\n') := fun hh => h.1 hh.symm
    have hih := ih h.2
    rw [List.cons_append, splitNl_cons_ne c _ hcn, hih]

theorem splitNl_joinSep (g : List Str) (hne : g ≠ [])
    (hfree : ∀ l ∈ g, '\n' ∉ l) : splitNl (joinSep (S "\n") g) = g := by
  induction g with
  | nil => exact absurd rfl hne
  | cons x g' ih =>
    cases g' with
    | nil => exact splitNl_of_nlFree x (hfree x (by simp))
    | cons y g'' =>
      rw [joinSep_cons_ne_nil _ _ _ (by simp)]
      have hx : '\n' ∉ x := hfree x (by simp)
      have hrw : x ++ S "\n" ++ joinSep (S "\n") (y :: g'') =
          x ++ '\n' :: joinSep (S "\n") (y :: g'') := by
        simp [S, List.append_assoc]
      rw [hrw, splitNl_append_nl _ _ hx,
        ih (by simp) (fun l hl => hfree l (List.mem_cons_of_mem x hl))]

theorem sectGo_ne_nil (ls cur : List Str) (h : cur ≠ []) : sectGo ls cur ≠ [] := by
  induction ls generalizing cur with
  | nil => simp [sectGo, h]
  | cons l ls' ih =>
    by_cases hsec : isSecLine l = true
    · simp only [sectGo, hsec, if_true]
      intro hcon
      exact ih [l] (by simp) (List.append_eq_nil.mp hcon).2
    · simp only [sectGo, hsec, if_false, Bool.false_eq_true]
      exact ih (l :: cur) (by simp)

theorem sectGo_join (ls : List Str) : ∀ cur,
    joinSep (S "\n") (sectGo ls cur) = joinSep (S "\n") (cur.reverse ++ ls) := by
  induction ls with
  | nil =>
    intro cur
    by_cases hc : cur = []
    · subst hc; rfl
    · simp only [sectGo, if_neg hc, List.append_nil]
      rfl
  | cons l ls' ih =>
    intro cur
    by_cases hsec : isSecLine l = true
    · simp only [sectGo, hsec, if_true]
      by_cases hc : cur = []
      · subst hc
        simp only [reduceIte, List.nil_append]
        rw [ih [l]]
        rfl
      · rw [if_neg hc, List.singleton_append,
          joinSep_cons_ne_nil _ _ _ (sectGo_ne_nil ls' [l] (by simp)),
          ih [l],
          joinSep_append (S "\n") cur.reverse (l :: ls') (by simp [hc]) (by simp)]
        rfl
    · simp only [sectGo, hsec, if_false, Bool.false_eq_true]
      rw [ih (l :: cur)]
      simp [List.append_assoc]

theorem sectGo_blocks (ls : List Str) : ∀ cur,
    (∀ l ∈ ls, '\n' ∉ l) → (∀ l ∈ cur, '\n' ∉ l) →
    ((sectGo ls cur).map splitNl).flatten = cur.reverse ++ ls := by
  induction ls with
  | nil =>
    intro cur _ hcur
    by_cases hc : cur = []
    · subst hc; rfl
    · simp only [sectGo, if_neg hc, List.map_cons, List.map_nil, List.flatten_cons,
        List.flatten_nil, List.append_nil]
      rw [splitNl_joinSep _ (by simp [hc]) (fun x hx => hcur x (List.mem_reverse.mp hx))]
  | cons l ls' ih =>
    intro cur hls hcur
    have hl0 : '\n' ∉ l := hls l (List.mem_cons_self l ls')
    have hls' : ∀ x ∈ ls', '\n' ∉ x := fun x hx => hls x (List.mem_cons_of_mem l hx)
    have hone : ∀ x ∈ [l], '\n' ∉ x := by
      intro x hx
      rw [List.mem_singleton] at hx
      subst hx; exact hl0
    by_cases hsec : isSecLine l = true
    · simp only [sectGo, hsec, if_true]
      by_cases hc : cur = []
      · subst hc
        simp only [reduceIte, List.nil_append, List.reverse_nil]
        have h2 := ih [l] hls' hone
        simpa using h2
      · rw [if_neg hc, List.singleton_append, List.map_cons, List.flatten_cons,
          splitNl_joinSep _ (by simp [hc]) (fun x hx => hcur x (List.mem_reverse.mp hx)),
          ih [l] hls' hone]
        simp [List.append_assoc]
    · simp only [sectGo, hsec, if_false, Bool.false_eq_true]
      have hcur' : ∀ x ∈ l :: cur, '\n' ∉ x := by
        intro x hx
        rcases List.mem_cons.mp hx with rfl | hx2
        · exact hl0
        · exact hcur x hx2
      rw [ih (l :: cur) hls' hcur']
      simp [List.append_assoc]

theorem joinSep_head_sec (c : Str) (rest : List Str) (hsec : isSecLine c = true) :
    isSecLine (joinSep (S "\n") (c :: rest)) = true := by
  cases rest with
  | nil => simpa [joinSep] using hsec
  | cons y ys =>
    rw [joinSep_cons_ne_nil _ _ _ (by simp)]
    unfold isSecLine at hsec ⊢
    rw [List.append_assoc]
    exact isPre_of_isPre_append _ _ _ hsec

theorem sectGo_all_sec (ls : List Str) : ∀ (cur0 : List Str) (c : Str),
    isSecLine c = true → ∀ b ∈ sectGo ls (cur0 ++ [c]), isSecLine b = true := by
  induction ls with
  | nil =>
    intro cur0 c hsec b hb
    simp only [sectGo, if_neg (show (cur0 ++ [c] : List Str) ≠ [] by simp),
      List.mem_singleton] at hb
    subst hb
    rw [List.reverse_append, List.reverse_singleton, List.singleton_append]
    exact joinSep_head_sec c cur0.reverse hsec
  | cons l ls' ih =>
    intro cur0 c hsec b hb
    by_cases hls : isSecLine l = true
    · simp only [sectGo, hls, if_true,
        if_neg (show (cur0 ++ [c] : List Str) ≠ [] by simp)] at hb
      rcases List.mem_append.mp hb with hb1 | hb2
      · rw [List.mem_singleton] at hb1
        subst hb1
        rw [List.reverse_append, List.reverse_singleton, List.singleton_append]
        exact joinSep_head_sec c cur0.reverse hsec
      · exact ih [] l hls b hb2
    · simp only [sectGo, hls, if_false, Bool.false_eq_true] at hb
      exact ih (l :: cur0) c hsec b hb

theorem sectGo_tail_sec (ls : List Str) : ∀ cur,
    ∀ b ∈ (sectGo ls cur).tail, isSecLine b = true := by
  induction ls with
  | nil =>
    intro cur b hb
    by_cases hc : cur = []
    · subst hc; simp [sectGo] at hb
    · simp only [sectGo, if_neg hc, List.tail_cons] at hb
      simp at hb
  | cons l ls' ih =>
    intro cur b hb
    by_cases hls : isSecLine l = true
    · simp only [sectGo, hls, if_true] at hb
      by_cases hc : cur = []
      · subst hc
        simp only [reduceIte, List.nil_append] at hb
        exact sectGo_all_sec ls' [] l hls b (List.mem_of_mem_tail hb)
      · rw [if_neg hc, List.singleton_append, List.tail_cons] at hb
        exact sectGo_all_sec ls' [] l hls b hb
    · simp only [sectGo, hls, if_false, Bool.false_eq_true] at hb
      exact ih (l :: cur) b hb

/-- C10: parse_outline_sections is a partition of the stripped outline:
joining the returned blocks with a single newline reproduces exactly the
stripped outline text; the blocks' line lists concatenate to exactly the
stripped outline's lines, each line in exactly one block in original order;
and every block after the first begins with a line starting with "## ". -/
theorem C10_section_partition (outline : Str) :
    joinSep (S "\n") (parseOutlineSections outline) = pyStrip outline ∧
    ((parseOutlineSections outline).map splitNl).flatten = splitNl (pyStrip outline) ∧
    ∀ b ∈ (parseOutlineSections outline).tail, isSecLine b = true := by
  refine ⟨?_, ?_, ?_⟩
  · unfold parseOutlineSections
    rw [sectGo_join]
    simp only [List.reverse_nil, List.nil_append]
    exact joinSep_splitNl (pyStrip outline)
  · unfold parseOutlineSections
    rw [sectGo_blocks _ _ (splitNl_nlFree (pyStrip outline)) (by simp)]
    simp
  · exact fun b hb => sectGo_tail_sec _ _ b hb

theorem C10_section_partition_witness :
    joinSep (S "\n") (parseOutlineSections (S "# T\n## 1. A\nx\n## 2. B")) =
      pyStrip (S "# T\n## 1. A\nx\n## 2. B") ∧
    isSecLine (S "## 2. B") = true :=
  ⟨(C10_section_partition (S "# T\n## 1. A\nx\n## 2. B")).1,
   (C10_section_partition (S "# T\n## 1. A\nx\n## 2. B")).2.2 (S "## 2. B") (by decide)⟩
/-! ## C9: duplicate section headings lose records -/

theorem plannerStep_sec (llm : Str → Str) (title : Str) (st : PState) (l : Str)
    (hsec : isSecLine (pyStrip l) = true) :
    plannerStep llm title st l =
      some ⟨secKeyOf (pyStrip l), dictSet st.qm (secKeyOf (pyStrip l)) []⟩ := by
  have hne : pyStrip l ≠ [] := by
    intro hc
    rw [hc] at hsec
    exact absurd hsec (by decide)
  unfold plannerStep
  rw [if_neg hne, if_pos hsec]

theorem plannerStep_nodup (llm : Str → Str) (title : Str) (st st' : PState) (l : Str)
    (h : plannerStep llm title st l = some st')
    (hnd : (st.qm.map Prod.fst).Nodup) : (st'.qm.map Prod.fst).Nodup := by
  unfold plannerStep at h
  by_cases h1 : pyStrip l = []
  · rw [if_pos h1] at h
    cases h
    exact hnd
  · rw [if_neg h1] at h
    by_cases h2 : isSecLine (pyStrip l) = true
    · rw [if_pos h2] at h
      cases h
      exact nodup_keys_dictSet _ _ _ hnd
    · rw [if_neg h2] at h
      by_cases h3 : isSubsecLine (pyStrip l) = true
      · rw [if_pos h3] at h
        cases hg : dictGet st.qm st.cs with
        | none => rw [hg] at h; cases h
        | some inner =>
          rw [hg] at h
          cases h
          exact nodup_keys_dictSet _ _ _ hnd
      · rw [if_neg h3] at h
        cases h
        exact hnd

theorem plannerGo_nodup (llm : Str → Str) (title : Str) (ls : List Str) :
    ∀ st st', plannerGo llm title ls st = some st' →
      (st.qm.map Prod.fst).Nodup → (st'.qm.map Prod.fst).Nodup := by
  induction ls with
  | nil =>
    intro st st' h hnd
    cases h
    exact hnd
  | cons l ls' ih =>
    intro st st' h hnd
    unfold plannerGo at h
    cases hs : plannerStep llm title st l with
    | none => rw [hs] at h; cases h
    | some st1 =>
      rw [hs] at h
      exact ih st1 st' h (plannerStep_nodup llm title st st1 l hs hnd)

theorem generalFill_keys (llm : Str → Str) (title : Str) (qm : QueryMap) :
    (generalFill llm title qm).map Prod.fst = qm.map Prod.fst := by
  unfold generalFill
  induction qm with
  | nil => rfl
  | cons p rest ih =>
    by_cases h : p.2 = [] <;> simp [fillEntry, h, ih]

/-- C9: (a) the query map returned by parse_outline_and_generate_queries
has at most one entry per distinct section text (its keys are
duplicate-free); (b) processing a `## ` section line replaces that section
text's map entry by a fresh empty dict in place — so all query records
previously attached to the same section text (a first occurrence of a
duplicated heading) are discarded at the second occurrence. -/
theorem C9_duplicate_sections (llm : Str → Str) :
    (∀ outline qm t, parseOutlineAndGenerateQueries llm outline = some (qm, t) →
      (qm.map Prod.fst).Nodup) ∧
    (∀ (st : PState) (title l : Str), isSecLine (pyStrip l) = true →
      plannerStep llm title st l =
        some ⟨secKeyOf (pyStrip l), dictSet st.qm (secKeyOf (pyStrip l)) []⟩ ∧
      dictGet (dictSet st.qm (secKeyOf (pyStrip l)) []) (secKeyOf (pyStrip l)) =
        some []) := by
  constructor
  · intro outline qm t h
    unfold parseOutlineAndGenerateQueries at h
    cases hg : plannerGo llm (extractTitle outline) ((splitNl (pyStrip outline)).tail)
        ⟨[], []⟩ with
    | none => rw [hg] at h; cases h
    | some st =>
      rw [hg] at h
      simp only [Option.map_some'] at h
      injection h with h2
      injection h2 with hq ht
      have hnd := plannerGo_nodup llm _ _ _ _ hg (by simp)
      rw [← hq, generalFill_keys]
      exact hnd
  · intro st title l hsec
    exact ⟨plannerStep_sec llm title st l hsec, dictGet_dictSet_self _ _ _⟩

theorem C9_duplicate_sections_witness :
    ((([(S "2. A", [(S "2.2. Q", (⟨S "X", S "INDEX"⟩ : QueryRecord))])] : QueryMap).map
      Prod.fst).Nodup) ∧
    plannerStep (fun _ => S "X") (S "T") ⟨S "", []⟩ (S "## 2. A") =
      some ⟨S "2. A", [(S "2. A", [])]⟩ := by
  constructor
  · exact (C9_duplicate_sections (fun _ => S "X")).1
      (S "# T\n## 2. A\n2.1. P\n## 2. A\n2.2. Q")
      [(S "2. A", [(S "2.2. Q", ⟨S "X", S "INDEX"⟩)])] (S "T") (by decide)
  · have h := ((C9_duplicate_sections (fun _ => S "X")).2 ⟨S "", []⟩ (S "T")
      (S "## 2. A") (by decide)).1
    exact h.trans (by decide)

/-! ## C4: outline parser structure -/

theorem extendSubs_nil_subs (acc : List OSection) : extendSubs acc [] = acc := by
  cases acc with
  | nil => rfl
  | cons cur rest => simp [extendSubs]

theorem cleanLines_cons_empty (l : Str) (ls : List Str) (h : pyStrip l = []) :
    cleanLines (l :: ls) = cleanLines ls := by
  simp [cleanLines, h]

theorem cleanLines_cons_ne (l : Str) (ls : List Str) (h : pyStrip l ≠ []) :
    cleanLines (l :: ls) = pyStrip l :: cleanLines ls := by
  simp [cleanLines, h]

theorem specBlock_eq_mkSecFrom (k : Nat) (line : Str) (body : List Str) :
    specBlock k (line, body) =
      { mkSecFrom k line with subsections := (body.filter isSubsecLine).map mkSubFrom } := by
  unfold specBlock mkSecFrom
  rcases h : matchSecNum (secKeyOf line) with _ | ⟨n, t⟩ <;> simp [h]

theorem mkSecFrom_subsections (k : Nat) (line : Str) :
    (mkSecFrom k line).subsections = [] := by
  unfold mkSecFrom
  rcases h : matchSecNum (secKeyOf line) with _ | ⟨n, t⟩ <;> simp [h]

theorem extendSubs_cons (cur : OSection) (rest : List OSection) (subs : List OSubsection) :
    extendSubs (cur :: rest) subs =
      { cur with subsections := cur.subsections ++ subs } :: rest := rfl

theorem splitSecs_cons_sec (l : Str) (ls : List Str) (h : isSecLine l = true) :
    splitSecs (l :: ls) = ([], (l, (splitSecs ls).1) :: (splitSecs ls).2) := by
  conv_lhs => unfold splitSecs
  rw [if_pos h]

theorem splitSecs_cons_nonsec (l : Str) (ls : List Str) (h : ¬ isSecLine l = true) :
    splitSecs (l :: ls) = (l :: (splitSecs ls).1, (splitSecs ls).2) := by
  conv_lhs => unfold splitSecs
  rw [if_neg h]

theorem structStep_empty (l : Str) (acc : List OSection) (h : pyStrip l = []) :
    structStep l acc = acc := by
  unfold structStep
  rw [if_pos h]

theorem structStep_sec (l : Str) (acc : List OSection) (h0 : pyStrip l ≠ [])
    (h1 : isSecLine (pyStrip l) = true) :
    structStep l acc = mkSecFrom acc.length (pyStrip l) :: acc := by
  unfold structStep
  rw [if_neg h0, if_pos h1]

theorem structStep_nil_acc (l : Str) (h0 : pyStrip l ≠ [])
    (h1 : ¬ isSecLine (pyStrip l) = true) : structStep l [] = [] := by
  unfold structStep
  rw [if_neg h0, if_neg h1]

theorem structStep_subsec (l : Str) (cur : OSection) (rest : List OSection)
    (h0 : pyStrip l ≠ []) (h1 : ¬ isSecLine (pyStrip l) = true)
    (h2 : isSubsecLine (pyStrip l) = true) :
    structStep l (cur :: rest) =
      { cur with subsections := cur.subsections ++ [mkSubFrom (pyStrip l)] } :: rest := by
  unfold structStep
  rw [if_neg h0, if_neg h1]
  exact if_pos h2

theorem structStep_other (l : Str) (cur : OSection) (rest : List OSection)
    (h0 : pyStrip l ≠ []) (h1 : ¬ isSecLine (pyStrip l) = true)
    (h2 : ¬ isSubsecLine (pyStrip l) = true) :
    structStep l (cur :: rest) = cur :: rest := by
  unfold structStep
  rw [if_neg h0, if_neg h1]
  exact if_neg h2

theorem structGo_cons (l : Str) (ls : List Str) (acc : List OSection) :
    structGo (l :: ls) acc = structGo ls (structStep l acc) := rfl

theorem structGo_spec (ls : List Str) : ∀ acc : List OSection,
    structGo ls acc =
      (extendSubs acc
        (((splitSecs (cleanLines ls)).1.filter isSubsecLine).map mkSubFrom)).reverse ++
      specSectionsFrom acc.length (splitSecs (cleanLines ls)).2 := by
  induction ls with
  | nil =>
    intro acc
    simp [structGo, cleanLines, splitSecs, specSectionsFrom, extendSubs_nil_subs]
  | cons l ls' ih =>
    intro acc
    rw [structGo_cons]
    by_cases h0 : pyStrip l = []
    · rw [structStep_empty l acc h0, cleanLines_cons_empty l ls' h0]
      exact ih acc
    · rw [cleanLines_cons_ne l ls' h0]
      by_cases h1 : isSecLine (pyStrip l) = true
      · rw [structStep_sec l acc h0 h1, splitSecs_cons_sec _ _ h1,
          ih (mkSecFrom acc.length (pyStrip l) :: acc)]
        simp only [List.filter_nil, List.map_nil, extendSubs_nil_subs, List.length_cons,
          specSectionsFrom]
        rw [specBlock_eq_mkSecFrom, extendSubs_cons]
        simp [mkSecFrom_subsections, List.append_assoc]
      · rw [splitSecs_cons_nonsec _ _ h1]
        cases acc with
        | nil =>
          by_cases h2 : isSubsecLine (pyStrip l) = true
          · rw [show structStep l [] = [] from by
              unfold structStep; rw [if_neg h0, if_neg h1]]
            rw [ih []]
            simp [extendSubs]
          · rw [structStep_nil_acc l h0 h1, ih []]
            simp [extendSubs]
        | cons cur rest =>
          by_cases h2 : isSubsecLine (pyStrip l) = true
          · rw [structStep_subsec l cur rest h0 h1 h2]
            rw [ih ({ cur with subsections :=
              cur.subsections ++ [mkSubFrom (pyStrip l)] } :: rest)]
            simp only [List.filter_cons, h2, if_true, List.map_cons, extendSubs,
              List.length_cons, List.append_assoc, List.singleton_append]
          · rw [structStep_other l cur rest h0 h1 h2, ih (cur :: rest)]
            simp only [List.filter_cons, h2, if_false, Bool.false_eq_true]

/-- The structure parse of _parse_outline_structure equals the declarative
block-split reading of the spec. -/
theorem parseStructure_spec (outline : Str) :
    parseOutlineStructure outline = specSections (scannedLines outline) := by
  unfold parseOutlineStructure specSections scannedLines
  rw [show (splitNl (pyStrip outline)).tail = (splitNl (pyStrip outline)).tail from rfl,
    structGo_spec]
  simp [extendSubs]

theorem splitSecs_blocks_length (ls : List Str) :
    (splitSecs ls).2.length = (ls.filter isSecLine).length := by
  induction ls with
  | nil => rfl
  | cons l ls' ih =>
    by_cases h : isSecLine l = true
    · simp [splitSecs, h, ih]
    · simp [splitSecs, h, ih]

theorem specSectionsFrom_length (k : Nat) (bs : List (Str × List Str)) :
    (specSectionsFrom k bs).length = bs.length := by
  induction bs generalizing k with
  | nil => rfl
  | cons b bs' ih => simp [specSectionsFrom, ih]

/-- C4: the outline structure parse yields exactly one section per
(stripped, non-empty, post-title) line starting with "## ", in source
order: the parse equals the declarative reading `specSections` that builds
one section per block of `splitSecs` — keeping a matched "<num>. <title>"
number normalized to a trailing dot, assigning the synthetic number
`len(sections)+1 .` to an unnumbered section, attaching every line matching
"<num>.<num>." or "<num>.<num> " to the immediately preceding section, and
silently dropping such lines occurring before any section line — and the
number of sections equals the number of "## " lines scanned. -/
theorem C4_outline_parser_structure (outline : Str) :
    parseOutlineStructure outline = specSections (scannedLines outline) ∧
    (parseOutlineStructure outline).length =
      ((scannedLines outline).filter isSecLine).length := by
  refine ⟨parseStructure_spec outline, ?_⟩
  rw [parseStructure_spec outline]
  unfold specSections
  rw [specSectionsFrom_length, splitSecs_blocks_length]

/-! ## C8: planner/assembler subsection key agreement -/

theorem takeDigits_all (ds rest : Str) (hds : ∀ ch ∈ ds, ch.isDigit = true)
    (hrest : ∀ ch, rest.head? = some ch → ch.isDigit = false) :
    takeDigits (ds ++ rest) = (ds, rest) := by
  induction ds with
  | nil =>
    cases rest with
    | nil => rfl
    | cons c cs =>
      have hc := hrest c rfl
      simp [takeDigits, hc]
  | cons d ds' ih =>
    have hd : d.isDigit = true := hds d (List.mem_cons_self d ds')
    have hds' : ∀ ch ∈ ds', ch.isDigit = true :=
      fun ch hch => hds ch (List.mem_cons_of_mem d hch)
    simp [takeDigits, hd, ih hds']

theorem dropWhile_head_false (p : Char → Bool) (t : Str)
    (h : t.head?.all (fun ch => !(p ch)) = true) : t.dropWhile p = t := by
  cases t with
  | nil => rfl
  | cons c cs =>
    simp only [List.head?_cons, Option.all_some, Bool.not_eq_true'] at h
    simp [List.dropWhile, h]

theorem pyWS_space : pyWS ' ' = true := rfl

theorem matchSubsec_dotted (d1 d2 t : Str)
    (hd1 : d1 ≠ []) (hall1 : ∀ ch ∈ d1, ch.isDigit = true)
    (hd2 : d2 ≠ []) (hall2 : ∀ ch ∈ d2, ch.isDigit = true)
    (ht : t.head?.all (fun ch => !(pyWS ch)) = true) :
    matchSubsec (d1 ++ ('.' :: (d2 ++ ('.' :: (' ' :: t))))) =
      some (d1 ++ ('.' :: d2), t) := by
  have h1 : takeDigits (d1 ++ ('.' :: (d2 ++ ('.' :: (' ' :: t))))) =
      (d1, '.' :: (d2 ++ ('.' :: (' ' :: t)))) :=
    takeDigits_all d1 _ hall1 (by intro ch hch; injection hch with hch; subst hch; decide)
  have h2 : takeDigits (d2 ++ ('.' :: (' ' :: t))) = (d2, '.' :: (' ' :: t)) :=
    takeDigits_all d2 _ hall2 (by intro ch hch; injection hch with hch; subst hch; decide)
  unfold matchSubsec
  rw [h1]
  simp [h2, hd1, hd2, pyWS_space, List.dropWhile, dropWhile_head_false pyWS t ht]

theorem matchSubsec_spaced (d1 d2 t : Str)
    (hd1 : d1 ≠ []) (hall1 : ∀ ch ∈ d1, ch.isDigit = true)
    (hd2 : d2 ≠ []) (hall2 : ∀ ch ∈ d2, ch.isDigit = true)
    (ht : t.head?.all (fun ch => !(pyWS ch)) = true) :
    matchSubsec (d1 ++ ('.' :: (d2 ++ (' ' :: t)))) = some (d1 ++ ('.' :: d2), t) := by
  have h1 : takeDigits (d1 ++ ('.' :: (d2 ++ (' ' :: t)))) =
      (d1, '.' :: (d2 ++ (' ' :: t))) :=
    takeDigits_all d1 _ hall1 (by intro ch hch; injection hch with hch; subst hch; decide)
  have h2 : takeDigits (d2 ++ (' ' :: t)) = (d2, ' ' :: t) :=
    takeDigits_all d2 _ hall2 (by intro ch hch; injection hch with hch; subst hch; decide)
  unfold matchSubsec
  rw [h1]
  simp [h2, hd1, hd2, pyWS_space, List.dropWhile, dropWhile_head_false pyWS t ht]

theorem isSubsecLine_dotted (d1 d2 t : Str)
    (hd1 : d1 ≠ []) (hall1 : ∀ ch ∈ d1, ch.isDigit = true)
    (hd2 : d2 ≠ []) (hall2 : ∀ ch ∈ d2, ch.isDigit = true) :
    isSubsecLine (d1 ++ ('.' :: (d2 ++ ('.' :: (' ' :: t))))) = true := by
  have h1 : takeDigits (d1 ++ ('.' :: (d2 ++ ('.' :: (' ' :: t))))) =
      (d1, '.' :: (d2 ++ ('.' :: (' ' :: t)))) :=
    takeDigits_all d1 _ hall1 (by intro ch hch; injection hch with hch; subst hch; decide)
  have h2 : takeDigits (d2 ++ ('.' :: (' ' :: t))) = (d2, '.' :: (' ' :: t)) :=
    takeDigits_all d2 _ hall2 (by intro ch hch; injection hch with hch; subst hch; decide)
  unfold isSubsecLine
  rw [h1]
  simp [h2, hd1, hd2]

theorem isSubsecLine_spaced (d1 d2 t : Str)
    (hd1 : d1 ≠ []) (hall1 : ∀ ch ∈ d1, ch.isDigit = true)
    (hd2 : d2 ≠ []) (hall2 : ∀ ch ∈ d2, ch.isDigit = true) :
    isSubsecLine (d1 ++ ('.' :: (d2 ++ (' ' :: t)))) = true := by
  have h1 : takeDigits (d1 ++ ('.' :: (d2 ++ (' ' :: t)))) =
      (d1, '.' :: (d2 ++ (' ' :: t))) :=
    takeDigits_all d1 _ hall1 (by intro ch hch; injection hch with hch; subst hch; decide)
  have h2 : takeDigits (d2 ++ (' ' :: t)) = (d2, ' ' :: t) :=
    takeDigits_all d2 _ hall2 (by intro ch hch; injection hch with hch; subst hch; decide)
  unfold isSubsecLine
  rw [h1]
  simp [h2, hd1, hd2, pyWS_space]

/-- C8: the planner keys a subsection record by the raw stripped line,
while the assembler looks up `"<num>.<num>. <title>"` with the number
normalized to a trailing dot.  For every dotted-form line
`d.d. Title` (single space, title not starting with whitespace) both keys
coincide and format_report's subsection step emits the mapped content;
for every space-form line `d.d Title` the assembler's key differs from the
planner's, the lookup misses, and a generated placeholder is emitted
instead of the record's content. -/
theorem C8_subsection_key_agreement (llm : Str → Str) (reportTitle secTitle c : Str)
    (d1 d2 t : Str)
    (hd1 : d1 ≠ []) (hall1 : ∀ ch ∈ d1, ch.isDigit = true)
    (hd2 : d2 ≠ []) (hall2 : ∀ ch ∈ d2, ch.isDigit = true)
    (ht : t.head?.all (fun ch => !(pyWS ch)) = true) :
    (isSubsecLine (d1 ++ ('.' :: (d2 ++ ('.' :: (' ' :: t))))) = true ∧
     subKeyOf (mkSubFrom (d1 ++ ('.' :: (d2 ++ ('.' :: (' ' :: t)))))) =
       d1 ++ ('.' :: (d2 ++ ('.' :: (' ' :: t)))) ∧
     renderSubsection llm reportTitle secTitle
         [(d1 ++ ('.' :: (d2 ++ ('.' :: (' ' :: t)))), c)]
         (mkSubFrom (d1 ++ ('.' :: (d2 ++ ('.' :: (' ' :: t)))))) =
       S "### " ++ (d1 ++ ('.' :: (d2 ++ ('.' :: (' ' :: t))))) ++ S "\n\n" ++ c ++
         S "\n\n") ∧
    (isSubsecLine (d1 ++ ('.' :: (d2 ++ (' ' :: t)))) = true ∧
     subKeyOf (mkSubFrom (d1 ++ ('.' :: (d2 ++ (' ' :: t))))) ≠
       d1 ++ ('.' :: (d2 ++ (' ' :: t))) ∧
     renderSubsection llm reportTitle secTitle [(d1 ++ ('.' :: (d2 ++ (' ' :: t))), c)]
         (mkSubFrom (d1 ++ ('.' :: (d2 ++ (' ' :: t))))) =
       S "### " ++ (d1 ++ ('.' :: (d2 ++ ('.' :: (' ' :: t))))) ++ S "\n\n" ++
         generatePlaceholder llm reportTitle secTitle t ++ S "\n\n") := by
  have hmd := matchSubsec_dotted d1 d2 t hd1 hall1 hd2 hall2 ht
  have hms := matchSubsec_spaced d1 d2 t hd1 hall1 hd2 hall2 ht
  have hkd : subKeyOf (mkSubFrom (d1 ++ ('.' :: (d2 ++ ('.' :: (' ' :: t)))))) =
      d1 ++ ('.' :: (d2 ++ ('.' :: (' ' :: t)))) := by
    unfold mkSubFrom
    rw [hmd]
    simp [subKeyOf, show S "." = ['.'] from rfl, List.append_assoc]
  have hks : subKeyOf (mkSubFrom (d1 ++ ('.' :: (d2 ++ (' ' :: t))))) =
      d1 ++ ('.' :: (d2 ++ ('.' :: (' ' :: t)))) := by
    unfold mkSubFrom
    rw [hms]
    simp [subKeyOf, show S "." = ['.'] from rfl, List.append_assoc]
  have hne : d1 ++ ('.' :: (d2 ++ ('.' :: (' ' :: t)))) ≠
      d1 ++ ('.' :: (d2 ++ (' ' :: t))) := by
    intro hcon
    have hlen := congrArg List.length hcon
    simp [List.length_append] at hlen
  refine ⟨⟨isSubsecLine_dotted d1 d2 t hd1 hall1 hd2 hall2, hkd, ?_⟩,
    ⟨isSubsecLine_spaced d1 d2 t hd1 hall1 hd2 hall2, by rw [hks]; exact hne, ?_⟩⟩
  · unfold renderSubsection
    rw [hkd]
    rw [show dictGet [(d1 ++ ('.' :: (d2 ++ ('.' :: (' ' :: t)))), c)]
        (d1 ++ ('.' :: (d2 ++ ('.' :: (' ' :: t))))) = some c from by simp [dictGet]]
  · unfold renderSubsection
    rw [hks]
    rw [show dictGet [(d1 ++ ('.' :: (d2 ++ (' ' :: t))), c)]
        (d1 ++ ('.' :: (d2 ++ ('.' :: (' ' :: t))))) = none from by
      simp [dictGet]]
    rw [show (mkSubFrom (d1 ++ ('.' :: (d2 ++ (' ' :: t))))).title = t from by
      unfold mkSubFrom; rw [hms]]

theorem C8_subsection_key_agreement_witness :
    subKeyOf (mkSubFrom (S "2.1. History")) = S "2.1. History" ∧
    subKeyOf (mkSubFrom (S "2.1 History")) ≠ S "2.1 History" ∧
    renderSubsection (fun _ => S "G") (S "T") (S "Background")
        [(S "2.1 History", S "MAPPED")] (mkSubFrom (S "2.1 History")) =
      S "### " ++ S "2.1. History" ++ S "\n\n" ++
        generatePlaceholder (fun _ => S "G") (S "T") (S "Background") (S "History") ++
        S "\n\n" := by
  have h := C8_subsection_key_agreement (fun _ => S "G") (S "T") (S "Background")
    (S "MAPPED") (S "2") (S "1") (S "History")
    (by decide) (by decide) (by decide) (by decide) (by decide)
  exact ⟨h.1.2.1, h.2.2.1, h.2.2.2⟩

/-! ## C1: assembler round-trip -/

theorem plannerStep_skip (llm : Str → Str) (title : Str) (st : PState) (l : Str)
    (h : pyStrip l = []) : plannerStep llm title st l = some st := by
  unfold plannerStep
  rw [if_pos h]

theorem plannerStep_subsec (llm : Str → Str) (title : Str) (st : PState) (l : Str)
    (h0 : pyStrip l ≠ []) (h1 : ¬ isSecLine (pyStrip l) = true)
    (h2 : isSubsecLine (pyStrip l) = true) (inner : InnerMap)
    (hg : dictGet st.qm st.cs = some inner) :
    plannerStep llm title st l =
      some ⟨st.cs, dictSet st.qm st.cs
        (dictSet inner (pyStrip l) (mkRecord llm title st.cs (pyStrip l)))⟩ := by
  unfold plannerStep
  rw [if_neg h0, if_neg h1, if_pos h2, hg]

theorem plannerStep_other (llm : Str → Str) (title : Str) (st : PState) (l : Str)
    (h0 : pyStrip l ≠ []) (h1 : ¬ isSecLine (pyStrip l) = true)
    (h2 : ¬ isSubsecLine (pyStrip l) = true) :
    plannerStep llm title st l = some st := by
  unfold plannerStep
  rw [if_neg h0, if_neg h1, if_neg h2]

theorem plannerGo_cons (llm : Str → Str) (title : Str) (l : Str) (ls : List Str)
    (st st' : PState) (h : plannerStep llm title st l = some st') :
    plannerGo llm title (l :: ls) st = plannerGo llm title ls st' := by
  conv_lhs => unfold plannerGo
  rw [h]

theorem plannerGo_blocks (llm : Str → Str) (title : Str) (ls : List Str) :
    ∀ (qm0 : QueryMap) (cs : Str) (cur : InnerMap),
    cs ∉ qm0.map Prod.fst →
    (∀ bk ∈ (splitSecs (cleanLines ls)).2.map (fun b => secKeyOf b.1),
      bk ∉ qm0.map Prod.fst ∧ bk ≠ cs) →
    ((splitSecs (cleanLines ls)).2.map (fun b => secKeyOf b.1)).Nodup →
    ((splitSecs (cleanLines ls)).1.filter isSubsecLine).Nodup →
    (∀ x ∈ (splitSecs (cleanLines ls)).1.filter isSubsecLine, x ∉ cur.map Prod.fst) →
    (∀ b ∈ (splitSecs (cleanLines ls)).2, (b.2.filter isSubsecLine).Nodup) →
    plannerGo llm title ls ⟨cs, qm0 ++ [(cs, cur)]⟩ =
      some ⟨lastKeyFrom cs (splitSecs (cleanLines ls)).2,
        qm0 ++ (cs, cur ++ recsFor llm title cs
          ((splitSecs (cleanLines ls)).1.filter isSubsecLine)) ::
        specQueryMap llm title (splitSecs (cleanLines ls)).2⟩ := by
  induction ls with
  | nil =>
    intro qm0 cs cur hcs hfresh hnodup hpre hdisj hbodies
    simp [plannerGo, cleanLines, splitSecs, lastKeyFrom, specQueryMap, recsFor]
  | cons l ls' ih =>
    intro qm0 cs cur hcs hfresh hnodup hpre hdisj hbodies
    by_cases h0 : pyStrip l = []
    · rw [plannerGo_cons llm title l ls' _ _ (plannerStep_skip llm title _ l h0)]
      rw [cleanLines_cons_empty l ls' h0] at hfresh hnodup hpre hdisj hbodies ⊢
      exact ih qm0 cs cur hcs hfresh hnodup hpre hdisj hbodies
    · rw [cleanLines_cons_ne l ls' h0] at hfresh hnodup hpre hdisj hbodies ⊢
      by_cases h1 : isSecLine (pyStrip l) = true
      · rw [splitSecs_cons_sec _ _ h1] at hfresh hnodup hpre hdisj hbodies ⊢
        dsimp only at hfresh hnodup hpre hdisj hbodies ⊢
        have hkfresh := hfresh (secKeyOf (pyStrip l)) (by simp)
        have hset : dictSet (qm0 ++ [(cs, cur)]) (secKeyOf (pyStrip l)) [] =
            (qm0 ++ [(cs, cur)]) ++ [(secKeyOf (pyStrip l), [])] := by
          apply dictSet_fresh
          simp only [List.map_append, List.mem_append]
          rintro (hmem | hmem)
          · exact hkfresh.1 hmem
          · simp at hmem
            exact hkfresh.2 hmem
        rw [plannerGo_cons llm title l ls' _ _ (plannerStep_sec llm title _ l h1)]
        simp only [hset]
        have hih := ih (qm0 ++ [(cs, cur)]) (secKeyOf (pyStrip l)) []
          (by
            simp only [List.map_append, List.mem_append]
            rintro (hmem | hmem)
            · exact hkfresh.1 hmem
            · simp at hmem
              exact hkfresh.2 hmem)
          (by
            intro bk hbk
            simp only [List.map_cons, List.mem_cons] at hfresh hnodup
            have hfr := hfresh bk (Or.inr hbk)
            refine ⟨?_, ?_⟩
            · simp only [List.map_append, List.mem_append]
              rintro (hmem | hmem)
              · exact hfr.1 hmem
              · simp at hmem
                exact hfr.2 hmem
            · intro hcon
              rw [List.nodup_cons] at hnodup
              exact hnodup.1 (hcon ▸ hbk))
          (by
            simp only [List.map_cons, List.nodup_cons] at hnodup
            exact hnodup.2)
          (hbodies (pyStrip l, (splitSecs (cleanLines ls')).1) (by simp))
          (by simp)
          (fun b hb => hbodies b (List.mem_cons_of_mem _ hb))
        rw [hih]
        simp [lastKeyFrom, specQueryMap, blockEntry, blockRecords, recsFor,
          List.append_assoc]
      · rw [splitSecs_cons_nonsec _ _ h1] at hfresh hnodup hpre hdisj hbodies ⊢
        dsimp only at hfresh hnodup hpre hdisj hbodies ⊢
        by_cases h2 : isSubsecLine (pyStrip l) = true
        · have hpre2 := hpre
          rw [List.filter_cons_of_pos h2] at hpre2 hdisj
          have hget : dictGet (qm0 ++ [(cs, cur)]) cs = some cur :=
            dictGet_mid qm0 cs cur [] hcs
          have hstep := plannerStep_subsec llm title ⟨cs, qm0 ++ [(cs, cur)]⟩ l h0 h1 h2
            cur hget
          have hcurfresh : pyStrip l ∉ cur.map Prod.fst :=
            hdisj (pyStrip l) (List.mem_cons_self _ _)
          have hsetcur : dictSet cur (pyStrip l) (mkRecord llm title cs (pyStrip l)) =
              cur ++ [(pyStrip l, mkRecord llm title cs (pyStrip l))] :=
            dictSet_fresh cur _ _ hcurfresh
          have hsetqm : dictSet (qm0 ++ [(cs, cur)]) cs
              (cur ++ [(pyStrip l, mkRecord llm title cs (pyStrip l))]) =
              qm0 ++ [(cs, cur ++ [(pyStrip l, mkRecord llm title cs (pyStrip l))])] :=
            dictSet_mid qm0 cs cur _ [] hcs
          rw [plannerGo_cons llm title l ls' _ _ hstep]
          simp only [hsetcur, hsetqm]
          have hih := ih qm0 cs (cur ++ [(pyStrip l, mkRecord llm title cs (pyStrip l))])
            hcs hfresh hnodup
            (by
              rw [List.nodup_cons] at hpre2
              exact hpre2.2)
            (by
              intro x hx
              simp only [List.map_append, List.mem_append]
              rintro (hmem | hmem)
              · exact hdisj x (List.mem_cons_of_mem _ hx) hmem
              · simp at hmem
                rw [List.nodup_cons] at hpre2
                exact hpre2.1 (hmem ▸ hx))
            hbodies
          rw [hih]
          rw [List.filter_cons_of_pos h2]
          simp [recsFor, List.append_assoc]
        · rw [List.filter_cons_of_neg h2] at hpre hdisj
          rw [plannerGo_cons llm title l ls' _ _ (plannerStep_other llm title _ l h0 h1 h2)]
          rw [List.filter_cons_of_neg h2]
          exact ih qm0 cs cur hcs hfresh hnodup hpre hdisj hbodies

theorem memB_iff (x : Str) (l : List Str) : memB x l = true ↔ x ∈ l := by
  induction l with
  | nil => simp [memB]
  | cons y ys ih => simp [memB, ih]

theorem nodupB_iff (l : List Str) : nodupB l = true ↔ l.Nodup := by
  induction l with
  | nil => simp [nodupB]
  | cons x xs ih =>
    simp only [nodupB, Bool.and_eq_true, Bool.not_eq_true', List.nodup_cons, ih]
    constructor
    · rintro ⟨h1, h2⟩
      refine ⟨fun hm => ?_, h2⟩
      rw [← memB_iff x xs] at hm
      rw [hm] at h1
      cases h1
    · rintro ⟨h1, h2⟩
      refine ⟨?_, h2⟩
      rw [← memB_iff x xs] at h1
      cases hmb : memB x xs
      · rfl
      · exact absurd hmb h1

theorem plannerGo_start (llm : Str → Str) (title : Str) (ls : List Str)
    (hpre : ∀ x ∈ (splitSecs (cleanLines ls)).1, isSubsecLine x = false)
    (hnodup : ((splitSecs (cleanLines ls)).2.map (fun b => secKeyOf b.1)).Nodup)
    (hbodies : ∀ b ∈ (splitSecs (cleanLines ls)).2, (b.2.filter isSubsecLine).Nodup) :
    plannerGo llm title ls ⟨[], []⟩ =
      some ⟨lastKeyFrom [] (splitSecs (cleanLines ls)).2,
        specQueryMap llm title (splitSecs (cleanLines ls)).2⟩ := by
  induction ls with
  | nil => simp [plannerGo, cleanLines, splitSecs, lastKeyFrom, specQueryMap]
  | cons l ls' ih =>
    by_cases h0 : pyStrip l = []
    · rw [plannerGo_cons llm title l ls' _ _ (plannerStep_skip llm title _ l h0)]
      rw [cleanLines_cons_empty l ls' h0] at hpre hnodup hbodies ⊢
      exact ih hpre hnodup hbodies
    · rw [cleanLines_cons_ne l ls' h0] at hpre hnodup hbodies ⊢
      by_cases h1 : isSecLine (pyStrip l) = true
      · rw [splitSecs_cons_sec _ _ h1] at hpre hnodup hbodies ⊢
        dsimp only at hpre hnodup hbodies ⊢
        have hstep := plannerStep_sec llm title ⟨[], []⟩ l h1
        rw [plannerGo_cons llm title l ls' _ _ hstep]
        have hset : dictSet ([] : QueryMap) (secKeyOf (pyStrip l)) [] =
            [] ++ [(secKeyOf (pyStrip l), [])] := rfl
        rw [show (⟨secKeyOf (pyStrip l), dictSet ([] : QueryMap) (secKeyOf (pyStrip l)) []⟩ :
            PState) = ⟨secKeyOf (pyStrip l), [] ++ [(secKeyOf (pyStrip l), [])]⟩ from rfl]
        simp only [List.map_cons, List.nodup_cons] at hnodup
        have hih := plannerGo_blocks llm title ls' [] (secKeyOf (pyStrip l)) []
          (by simp)
          (by
            intro bk hbk
            exact ⟨by simp, fun hcon => hnodup.1 (hcon ▸ hbk)⟩)
          hnodup.2
          (hbodies (pyStrip l, (splitSecs (cleanLines ls')).1) (by simp))
          (by simp)
          (fun b hb => hbodies b (List.mem_cons_of_mem _ hb))
        rw [hih]
        simp [lastKeyFrom, specQueryMap, blockEntry, blockRecords, recsFor]
      · rw [splitSecs_cons_nonsec _ _ h1] at hpre hnodup hbodies ⊢
        dsimp only at hpre hnodup hbodies ⊢
        by_cases h2 : isSubsecLine (pyStrip l) = true
        · have := hpre (pyStrip l) (List.mem_cons_self _ _)
          rw [h2] at this
          cases this
        · rw [plannerGo_cons llm title l ls' _ _
            (plannerStep_other llm title _ l h0 h1 h2)]
          exact ih (fun x hx => hpre x (List.mem_cons_of_mem _ hx)) hnodup hbodies

/-- Extraction lemmas from a canonical block. -/
theorem canonicalBlock_body_nodup (b : Str × List Str)
    (h : canonicalBlock b = true) : (b.2.filter isSubsecLine).Nodup := by
  unfold canonicalBlock at h
  cases hm : matchSecNum (secKeyOf b.1) with
  | none => rw [hm] at h; cases h
  | some p =>
    obtain ⟨n, t⟩ := p
    rw [hm] at h
    simp only [Bool.and_eq_true] at h
    by_cases hic : (isSubstr (S "introduction") (lowerStr t) ||
        isSubstr (S "conclusion") (lowerStr t)) = true
    · rw [if_pos hic] at h
      have hall := h.2
      rw [List.all_eq_true] at hall
      have : b.2.filter isSubsecLine = [] := by
        rw [List.filter_eq_nil_iff]
        intro x hx
        have := hall x hx
        simp only [Bool.not_eq_true'] at this
        simp [this]
      rw [this]
      exact List.nodup_nil
    · rw [if_neg hic] at h
      have := h.2
      simp only [Bool.and_eq_true] at this
      exact (nodupB_iff _).mp this.2

/-- The planner on a well-formed outline produces exactly the block-wise
query map (with the "General" fill applied). -/
theorem planner_spec (llm : Str → Str) (outline : Str)
    (hw : wellFormedOutline outline = true) :
    parseOutlineAndGenerateQueries llm outline =
      some (generalFill llm (extractTitle outline)
        (specQueryMap llm (extractTitle outline) (splitSecs (scannedLines outline)).2),
        extractTitle outline) := by
  unfold wellFormedOutline at hw
  simp only [Bool.and_eq_true] at hw
  have hpre : ∀ x ∈ (splitSecs (scannedLines outline)).1, isSubsecLine x = false := by
    have := hw.1.1
    rw [List.all_eq_true] at this
    intro x hx
    have h2 := this x hx
    simpa using h2
  have hnodup : ((splitSecs (scannedLines outline)).2.map
      (fun b => secKeyOf b.1)).Nodup := (nodupB_iff _).mp hw.2
  have hbodies : ∀ b ∈ (splitSecs (scannedLines outline)).2,
      (b.2.filter isSubsecLine).Nodup := by
    intro b hb
    have := hw.1.2
    rw [List.all_eq_true] at this
    exact canonicalBlock_body_nodup b (this b hb)
  unfold parseOutlineAndGenerateQueries
  rw [plannerGo_start llm (extractTitle outline) ((splitNl (pyStrip outline)).tail)
    hpre hnodup hbodies]
  rfl

/-! ## C1: assembler round-trip -/

theorem canonicalSubsec_key (l : Str) (h : canonicalSubsecLine l = true) :
    subKeyOf (mkSubFrom l) = l := by
  unfold canonicalSubsecLine at h
  cases hm : matchSubsec l with
  | none => rw [hm] at h; cases h
  | some p =>
    obtain ⟨n, t⟩ := p
    rw [hm] at h
    simp only [decide_eq_true_eq] at h
    have hmk : mkSubFrom l = ⟨n ++ S ".", t⟩ := by
      unfold mkSubFrom
      rw [hm]
    rw [hmk]
    unfold subKeyOf
    dsimp only
    rw [h, List.append_assoc]
    rfl

theorem renderSection_regen (llm : Str → Str) (contents : ContentMap) (rtitle : Str)
    (sec : OSection)
    (h : isSubstr (S "introduction") (lowerStr sec.title) = true ∨
         isSubstr (S "conclusion") (lowerStr sec.title) = true) :
    renderSection llm contents rtitle sec = expectedSection llm contents rtitle sec := by
  unfold renderSection expectedSection
  by_cases hi : isSubstr (S "introduction") (lowerStr sec.title) = true
  · rw [if_pos hi, if_pos hi]
    cases hgi : generateIntroduction llm rtitle contents <;> rfl
  · rcases h with h | h
    · exact absurd h hi
    · rw [if_neg hi, if_pos h, if_neg hi, if_pos h]
      cases hgc : generateConclusion llm rtitle contents <;> rfl

theorem renderSection_content (llm : Str → Str) (contents : ContentMap) (rtitle : Str)
    (sec : OSection) (cin : List (Str × Str))
    (hni : ¬ isSubstr (S "introduction") (lowerStr sec.title) = true)
    (hnc : ¬ isSubstr (S "conclusion") (lowerStr sec.title) = true)
    (hget : dictGet contents (sectionKeyOf sec) = some cin)
    (hsubs : ∀ sub ∈ sec.subsections, (dictGet cin (subKeyOf sub)).isSome = true) :
    renderSection llm contents rtitle sec = expectedSection llm contents rtitle sec := by
  have hmapeq : sec.subsections.map (renderSubsection llm rtitle sec.title cin) =
      sec.subsections.map (expectedSubsection cin) := by
    apply List.map_congr_left
    intro sub hsub
    obtain ⟨c, hc⟩ := Option.isSome_iff_exists.mp (hsubs sub hsub)
    unfold renderSubsection expectedSubsection
    rw [hc]
    rfl
  unfold renderSection expectedSection
  rw [if_neg hni, if_neg hnc, if_neg hni, if_neg hnc, hget]
  dsimp only [Option.getD]
  rw [hmapeq]

theorem renderSection_block (llm : Str → Str) (contents : ContentMap)
    (ptitle rtitle : Str) (k : Nat) (b : Str × List Str)
    (hcb : canonicalBlock b = true)
    (hcov : coversEntry contents (fillEntry llm ptitle (blockEntry llm ptitle b)) = true) :
    renderSection llm contents rtitle (specBlock k b) =
      expectedSection llm contents rtitle (specBlock k b) := by
  obtain ⟨sline, body⟩ := b
  unfold canonicalBlock at hcb
  dsimp only at hcb hcov
  cases hm : matchSecNum (secKeyOf sline) with
  | none => rw [hm] at hcb; cases hcb
  | some p =>
    obtain ⟨n, t⟩ := p
    rw [hm] at hcb
    dsimp only at hcb
    simp only [Bool.and_eq_true, decide_eq_true_eq] at hcb
    obtain ⟨⟨hkey, htne⟩, hbr⟩ := hcb
    have hsb : specBlock k (sline, body) =
        ⟨n, t, (body.filter isSubsecLine).map mkSubFrom⟩ := by
      rw [specBlock_eq_mkSecFrom k sline body]
      unfold mkSecFrom
      rw [hm]
    have hsk : sectionKeyOf
        (⟨n, t, (body.filter isSubsecLine).map mkSubFrom⟩ : OSection) =
        secKeyOf sline := by
      unfold sectionKeyOf
      dsimp only
      rw [hkey]
    by_cases hic : (isSubstr (S "introduction") (lowerStr t) ||
        isSubstr (S "conclusion") (lowerStr t)) = true
    · rw [hsb]
      apply renderSection_regen
      dsimp only
      exact (Bool.or_eq_true _ _) ▸ hic
    · rw [if_neg hic] at hbr
      simp only [Bool.or_eq_true, not_or] at hic
      simp only [Bool.and_eq_true] at hbr
      by_cases hfe : body.filter isSubsecLine = []
      · have hfill : fillEntry llm ptitle (blockEntry llm ptitle (sline, body)) =
            (secKeyOf sline,
              [(S "General", mkRecord llm ptitle (secKeyOf sline) (S "General overview"))]) := by
          unfold fillEntry blockEntry blockRecords recsFor
          dsimp only
          rw [hfe]
          simp
        rw [hfill] at hcov
        unfold coversEntry at hcov
        dsimp only at hcov
        cases hg : dictGet contents (secKeyOf sline) with
        | none => rw [hg] at hcov; cases hcov
        | some cin =>
          rw [hsb]
          refine renderSection_content llm contents rtitle _ cin ?_ ?_ ?_ ?_
          · dsimp only
            exact hic.1
          · dsimp only
            exact hic.2
          · rw [hsk]
            exact hg
          · dsimp only
            rw [hfe]
            intro sub hsub
            cases hsub
      · have hne : recsFor llm ptitle (secKeyOf sline) (body.filter isSubsecLine) ≠ [] := by
          unfold recsFor
          simp [hfe]
        have hfill : fillEntry llm ptitle (blockEntry llm ptitle (sline, body)) =
            (secKeyOf sline,
              recsFor llm ptitle (secKeyOf sline) (body.filter isSubsecLine)) := by
          unfold fillEntry blockEntry blockRecords
          dsimp only
          rw [if_neg hne]
        rw [hfill] at hcov
        unfold coversEntry at hcov
        dsimp only at hcov
        cases hg : dictGet contents (secKeyOf sline) with
        | none => rw [hg] at hcov; cases hcov
        | some cin =>
          rw [hg] at hcov
          dsimp only at hcov
          rw [List.all_eq_true] at hcov
          have hall : ∀ l ∈ body.filter isSubsecLine, (dictGet cin l).isSome = true := by
            intro l hl
            have := hcov (l, mkRecord llm ptitle (secKeyOf sline) l) (by
              unfold recsFor
              exact List.mem_map_of_mem _ hl)
            simpa using this
          have hcanon : ∀ l ∈ body.filter isSubsecLine, canonicalSubsecLine l = true := by
            have h1 := hbr.1
            rw [List.all_eq_true] at h1
            exact h1
          rw [hsb]
          refine renderSection_content llm contents rtitle _ cin ?_ ?_ ?_ ?_
          · dsimp only
            exact hic.1
          · dsimp only
            exact hic.2
          · rw [hsk]
            exact hg
          · dsimp only
            intro sub hsub
            obtain ⟨l, hl, hle⟩ := List.mem_map.mp hsub
            rw [← hle, canonicalSubsec_key l (hcanon l hl)]
            exact hall l hl

theorem mapM_congr_mem {α β : Type} (l : List α) (f g : α → Option β)
    (h : ∀ x ∈ l, f x = g x) : l.mapM f = l.mapM g := by
  induction l with
  | nil => rfl
  | cons x xs ih =>
    rw [List.mapM_cons, List.mapM_cons, h x (List.mem_cons_self x xs),
      ih fun y hy => h y (List.mem_cons_of_mem x hy)]

theorem mem_specSectionsFrom (bs : List (Str × List Str)) (sec : OSection) :
    ∀ k, sec ∈ specSectionsFrom k bs → ∃ j b, b ∈ bs ∧ sec = specBlock j b := by
  induction bs with
  | nil =>
    intro k h
    cases h
  | cons b bs' ih =>
    intro k h
    rw [show specSectionsFrom k (b :: bs') =
      specBlock k b :: specSectionsFrom (k + 1) bs' from rfl] at h
    rcases List.mem_cons.mp h with h | h
    · exact ⟨k, b, List.mem_cons_self b bs', h⟩
    · obtain ⟨j, b', hb', he⟩ := ih (k + 1) h
      exact ⟨j, b', List.mem_cons_of_mem b hb', he⟩

/-- C1 counterexample: the outline "# T\n## 1. Background\n1.1 History"
carries its only subsection line in the space form "1.1 History"; the content
map keyed exactly by the planner's query records (so it contains an entry for
every record) maps that record to "MAPPED", yet the report format_report
returns does not contain "MAPPED" at all: the assembler looks up the
normalized key "1.1. History", misses, and emits a generated placeholder
instead of the mapped content. -/
theorem C1_assembler_roundtrip_counterexample :
    (parseOutlineAndGenerateQueries (fun _ => S "GEN")
        (S "# T\n## 1. Background\n1.1 History")).map
      (fun p => coversQueryMap
        [(S "1. Background", [(S "1.1 History", S "MAPPED")])] p.1) = some true ∧
    (formatReport (fun _ => S "GEN")
        [(S "1. Background", [(S "1.1 History", S "MAPPED")])] (S "T")
        (S "# T\n## 1. Background\n1.1 History")).map
      (fun r => isSubstr (S "MAPPED") r) = some false := by
  decide

/-- C1 (amended): on a well-formed outline — every subsection line in the
dotted canonical form "d.d. Title", every section text in the form
"d. Title", section texts pairwise distinct, and no subsection line before
the first section line — if the planner succeeds with query map qm and the
content map covers every record of qm, then format_report returns exactly
the spec-side report: the title heading followed by, per section in outline
order, its heading exactly once, introduction/conclusion content
regenerated fresh, and otherwise an overview paragraph plus each subsection
heading exactly once, immediately followed by that subsection's mapped
content. -/
theorem C1_assembler_roundtrip_amended (llm : Str → Str) (contents : ContentMap)
    (title outline : Str) (qm : QueryMap) (t : Str)
    (hw : wellFormedOutline outline = true)
    (hp : parseOutlineAndGenerateQueries llm outline = some (qm, t))
    (hc : coversQueryMap contents qm = true) :
    formatReport llm contents title outline =
      expectedReport llm contents title outline := by
  rw [planner_spec llm outline hw] at hp
  injection hp with hp1
  have hqm : qm = generalFill llm (extractTitle outline)
      (specQueryMap llm (extractTitle outline)
        (splitSecs (scannedLines outline)).2) :=
    ((Prod.ext_iff.mp hp1).1).symm
  subst hqm
  unfold wellFormedOutline at hw
  simp only [Bool.and_eq_true] at hw
  have hcb : ∀ b ∈ (splitSecs (scannedLines outline)).2, canonicalBlock b = true := by
    have h2 := hw.1.2
    rw [List.all_eq_true] at h2
    exact h2
  unfold coversQueryMap at hc
  rw [List.all_eq_true] at hc
  unfold formatReport expectedReport
  rw [parseStructure_spec outline]
  unfold specSections
  have hmm : (specSectionsFrom 0 (splitSecs (scannedLines outline)).2).mapM
      (renderSection llm contents title) =
      (specSectionsFrom 0 (splitSecs (scannedLines outline)).2).mapM
      (expectedSection llm contents title) := by
    apply mapM_congr_mem
    intro sec hsec
    obtain ⟨j, b, hb, hbe⟩ := mem_specSectionsFrom _ sec 0 hsec
    rw [hbe]
    refine renderSection_block llm contents (extractTitle outline) title j b
      (hcb b hb) ?_
    apply hc
    unfold generalFill specQueryMap
    exact List.mem_map_of_mem _ (List.mem_map_of_mem _ hb)
  rw [hmm]
  cases hM : (specSectionsFrom 0 (splitSecs (scannedLines outline)).2).mapM
      (expectedSection llm contents title) <;> rfl

/-- Closed witness for the amended C1 theorem at a concrete well-formed
outline, planner output and covering content map. -/
theorem C1_assembler_roundtrip_amended_witness :
    wellFormedOutline c1Outline = true ∧
    parseOutlineAndGenerateQueries c1Llm c1Outline =
      some (c1Qm, extractTitle c1Outline) ∧
    coversQueryMap c1Contents c1Qm = true ∧
    formatReport c1Llm c1Contents (S "T") c1Outline =
      expectedReport c1Llm c1Contents (S "T") c1Outline :=
  ⟨by decide, by decide, by decide,
    C1_assembler_roundtrip_amended c1Llm c1Contents (S "T") c1Outline c1Qm
      (extractTitle c1Outline) (by decide) (by decide) (by decide)⟩

end RPG
